import Mathlib

/-!
Verification of the faucet stacking subsystem (stack.py, valve_stack.py,
valve_switch_stack.py, valve_lldp.py, valves_manager.py).

Datapath names and port names are modelled as naturals whose numeric order
stands for the order on the source's strings, so lexicographic comparison of
name lists models Python list comparison of name lists.
-/

namespace Faucet

abbrev DpName := Nat
abbrev PortName := Nat

/-- An endpoint of a stack link: (datapath name, port name). -/
abbrev Endp := DpName × PortName

/-- The canonical key of a stack link, the sorted endpoint pair
(`make_edge_name` in `Stack.modify_topology`). -/
abbrev EdgeKey := Endp × Endp

/-- The stack topology graph (`Stack.graph`, a `networkx.MultiGraph`):
a node list and a list of keyed undirected edges. -/
structure StackGraph where
  nodes : List DpName
  edges : List (DpName × DpName × EdgeKey)
  deriving DecidableEq, Repr

namespace StackGraph

/-- `u` and `v` are joined by some edge (in either stored orientation). -/
def adjB (g : StackGraph) (u v : DpName) : Bool :=
  g.edges.any fun e => (e.1 == u && e.2.1 == v) || (e.1 == v && e.2.1 == u)

/-- All neighbours of `u` read off the edge list. -/
def nbrs (g : StackGraph) (u : DpName) : List DpName :=
  g.edges.foldr (fun e acc =>
    (if e.1 == u then [e.2.1] else []) ++ (if e.2.1 == u then [e.1] else []) ++ acc) []

/-- Every edge endpoint is a recorded node (maintained by `networkx`,
whose `add_edge` inserts both endpoints as nodes). -/
def WF (g : StackGraph) : Prop :=
  ∀ e ∈ g.edges, e.1 ∈ g.nodes ∧ e.2.1 ∈ g.nodes

lemma adjB_symm (g : StackGraph) (u v : DpName) : g.adjB u v = g.adjB v u := by
  simp only [adjB]
  apply Bool.eq_iff_iff.mpr
  simp only [List.any_eq_true]
  constructor <;>
    · rintro ⟨e, he, hor⟩
      exact ⟨e, he, by revert hor; cases h1 : (e.1 == u) <;> cases h2 : (e.1 == v) <;>
        cases h3 : (e.2.1 == u) <;> cases h4 : (e.2.1 == v) <;> simp⟩

lemma mem_nbrs (g : StackGraph) (u v : DpName) :
    v ∈ g.nbrs u ↔ g.adjB u v = true := by
  simp only [nbrs, adjB, List.any_eq_true]
  induction g.edges with
  | nil => simp
  | cons e es ih =>
    simp only [List.foldr_cons, List.mem_append, List.mem_cons, ih]
    constructor
    · rintro ((h | h) | ⟨f, hf, hor⟩)
      · by_cases h1 : e.1 == u
        · refine ⟨e, Or.inl rfl, ?_⟩
          simp only [h1, if_pos] at h ⊢
          simp only [List.mem_singleton] at h
          subst h
          simp
        · simp [h1] at h
      · by_cases h2 : e.2.1 == u
        · refine ⟨e, Or.inl rfl, ?_⟩
          simp only [h2, if_pos] at h ⊢
          simp only [List.mem_singleton] at h
          subst h
          simp
        · simp [h2] at h
      · exact ⟨f, Or.inr hf, hor⟩
    · rintro ⟨f, hf, hor⟩
      rcases hf with rfl | hf
      · rcases Bool.or_eq_true .. |>.mp hor with h | h
        · have h1 : f.1 == u := by revert h; cases (f.1 == u) <;> simp
          have h2 : f.2.1 == v := by revert h; cases (f.2.1 == v) <;> cases (f.1 == u) <;> simp
          left; left
          simp [h1, eq_of_beq h2]
        · have h1 : f.2.1 == u := by revert h; cases (f.2.1 == u) <;> cases (f.1 == v) <;> simp
          have h2 : f.1 == v := by revert h; cases (f.1 == v) <;> simp
          left; right
          simp [h1, eq_of_beq h2]
      · exact Or.inr ⟨f, hf, hor⟩

lemma adjB_mem_right {g : StackGraph} (hwf : g.WF) {u v : DpName}
    (h : g.adjB u v = true) : v ∈ g.nodes := by
  simp only [adjB, List.any_eq_true] at h
  obtain ⟨e, he, hor⟩ := h
  obtain ⟨h1, h2⟩ := hwf e he
  rcases Bool.or_eq_true .. |>.mp hor with h | h
  · have : e.2.1 == v := by revert h; cases (e.2.1 == v) <;> cases (e.1 == u) <;> simp
    exact eq_of_beq this ▸ h2
  · have : e.1 == v := by revert h; cases (e.1 == v) <;> simp
    exact eq_of_beq this ▸ h1

end StackGraph

/-! ### Walks

A walk is a nonempty list of datapath names in which every consecutive pair is
joined by an edge.  `rwalks` enumerates walks in reversed representation
(head = current endpoint, last = start), which matches growing a walk by
consing the next neighbour. -/

/-- `p` is a walk whose first element is `a` and last element is `b`. -/
def IsWalkFrom (g : StackGraph) (a b : DpName) (p : List DpName) : Prop :=
  p.head? = some a ∧ p.getLast? = some b ∧
    List.Chain' (fun u v => g.adjB u v = true) p

/-- `b` is reachable from `a`: some walk joins them. -/
def Reachable (g : StackGraph) (a b : DpName) : Prop :=
  ∃ p, IsWalkFrom g a b p

instance (g : StackGraph) (a b : DpName) (p : List DpName) :
    Decidable (IsWalkFrom g a b p) :=
  inferInstanceAs (Decidable (_ ∧ _ ∧ _))

instance (g : StackGraph) : Decidable g.WF :=
  inferInstanceAs (Decidable (∀ e ∈ g.edges, e.1 ∈ g.nodes ∧ e.2.1 ∈ g.nodes))

/-- All reversed walks that start (i.e. end, in reversed form) at `a`
and have exactly `k` edges. -/
def rwalks (g : StackGraph) (a : DpName) : Nat → List (List DpName)
  | 0 => [[a]]
  | k+1 => (rwalks g a k).foldr (fun w acc =>
      (match w with
       | [] => []
       | c :: _ => (g.nbrs c).map (fun v => v :: w)) ++ acc) []

/-- A reversed walk: last element `a` (the start), adjacent consecutive pairs. -/
def IsRWalk (g : StackGraph) (a : DpName) (w : List DpName) : Prop :=
  w.getLast? = some a ∧ List.Chain' (fun u v => g.adjB u v = true) w

lemma mem_foldr_append {α β : Type} (f : α → List β) (l : List α) (x : β) :
    x ∈ l.foldr (fun w acc => f w ++ acc) [] ↔ ∃ w ∈ l, x ∈ f w := by
  induction l with
  | nil => simp
  | cons h t ih => simp [ih]

lemma rwalks_sound {g : StackGraph} {a : DpName} :
    ∀ {k : Nat} {w : List DpName}, w ∈ rwalks g a k →
      w.length = k + 1 ∧ IsRWalk g a w := by
  intro k
  induction k with
  | zero =>
    intro w hw
    simp only [rwalks, List.mem_singleton] at hw
    subst hw
    exact ⟨rfl, rfl, List.chain'_singleton a⟩
  | succ k ih =>
    intro w hw
    simp only [rwalks] at hw
    rw [mem_foldr_append] at hw
    obtain ⟨w', hw', hx⟩ := hw
    obtain ⟨hlen, hlast, hchain⟩ := ih hw'
    match w', hx with
    | c :: t, hx =>
      simp only [List.mem_map] at hx
      obtain ⟨v, hv, rfl⟩ := hx
      refine ⟨by simp [hlen], ?_, ?_⟩
      · rw [List.getLast?_cons_cons]
        exact hlast
      · refine List.chain'_cons'.mpr ⟨?_, hchain⟩
        intro y hy
        simp only [List.head?_cons, Option.mem_def, Option.some.injEq] at hy
        subst hy
        rw [g.adjB_symm]
        exact (g.mem_nbrs c v).mp hv

lemma rwalks_complete {g : StackGraph} {a : DpName} :
    ∀ {k : Nat} {w : List DpName}, w.length = k + 1 → IsRWalk g a w →
      w ∈ rwalks g a k := by
  intro k
  induction k with
  | zero =>
    intro w hlen hw
    match w, hlen with
    | [x], _ =>
      obtain ⟨hlast, _⟩ := hw
      simp only [List.getLast?_singleton, Option.some.injEq] at hlast
      subst hlast
      simp [rwalks]
  | succ k ih =>
    intro w hlen hw
    match w, hlen with
    | v :: c :: t, hlen =>
      obtain ⟨hlast, hchain⟩ := hw
      have hchain' := List.chain'_cons.mp hchain
      have hmem : (c :: t) ∈ rwalks g a k := by
        apply ih
        · simpa using hlen
        · refine ⟨?_, hchain'.2⟩
          rw [List.getLast?_cons_cons] at hlast
          exact hlast
      simp only [rwalks]
      rw [mem_foldr_append]
      refine ⟨c :: t, hmem, ?_⟩
      simp only [List.mem_map]
      exact ⟨v, (g.mem_nbrs c v).mpr (by rw [g.adjB_symm]; exact hchain'.1), rfl⟩

/-! ### Lexicographic order on name lists (Python list comparison) -/

/-- Python `<=` on lists of names: lexicographic, shorter prefix first. -/
def lexLe : List Nat → List Nat → Bool
  | [], _ => true
  | _ :: _, [] => false
  | a :: as, b :: bs => if a < b then true else if b < a then false else lexLe as bs

lemma lexLe_refl : ∀ l : List Nat, lexLe l l = true
  | [] => rfl
  | a :: as => by simp [lexLe, lexLe_refl as]

lemma lexLe_total : ∀ l m : List Nat, lexLe l m = true ∨ lexLe m l = true
  | [], _ => Or.inl rfl
  | _ :: _, [] => Or.inr rfl
  | a :: as, b :: bs => by
    rcases Nat.lt_trichotomy a b with h | h | h
    · left; simp [lexLe, h]
    · subst h
      rcases lexLe_total as bs with ht | ht
      · left; simp [lexLe, ht]
      · right; simp [lexLe, ht]
    · right; simp [lexLe, h]

lemma lexLe_trans : ∀ {l m r : List Nat},
    lexLe l m = true → lexLe m r = true → lexLe l r = true
  | [], _, _, _, _ => rfl
  | _ :: _, [], _, h, _ => by simp [lexLe] at h
  | _ :: _, _ :: _, [], _, h => by simp [lexLe] at h
  | a :: as, b :: bs, c :: cs, h1, h2 => by
    simp only [lexLe] at h1 h2 ⊢
    by_cases hab : a < b
    · by_cases hbc : b < c
      · simp [Nat.lt_trans hab hbc]
      · by_cases hcb : c < b
        · rw [if_neg hbc, if_pos hcb] at h2
          exact absurd h2 (by simp)
        · have hbceq : b = c := by omega
          subst hbceq
          simp [hab]
    · by_cases hba : b < a
      · rw [if_neg hab, if_pos hba] at h1
        exact absurd h1 (by simp)
      · have habeq : a = b := by omega
        subst habeq
        rw [if_neg (Nat.lt_irrefl a), if_neg (Nat.lt_irrefl a)] at h1
        by_cases hac : a < c
        · simp [hac]
        · by_cases hca : c < a
          · rw [if_neg hac, if_pos hca] at h2
            exact absurd h2 (by simp)
          · have haceq : a = c := by omega
            subst haceq
            rw [if_neg (Nat.lt_irrefl a), if_neg (Nat.lt_irrefl a)] at h2
            rw [if_neg (Nat.lt_irrefl a), if_neg (Nat.lt_irrefl a)]
            exact lexLe_trans h1 h2

/-- The least element of a nonempty list of paths (`sorted(...)[0]` in
`Stack.shortest_path`). -/
def lexMinimum : List (List Nat) → List Nat
  | [] => []
  | w :: ws => ws.foldl (fun best q => if lexLe q best then q else best) w

lemma foldl_lexMin_spec (ws : List (List Nat)) (acc : List Nat) :
    (ws.foldl (fun best q => if lexLe q best then q else best) acc = acc ∨
     ws.foldl (fun best q => if lexLe q best then q else best) acc ∈ ws) ∧
    lexLe (ws.foldl (fun best q => if lexLe q best then q else best) acc) acc = true ∧
    (∀ q ∈ ws, lexLe (ws.foldl (fun best q => if lexLe q best then q else best) acc) q = true) := by
  induction ws generalizing acc with
  | nil => simp [lexLe_refl]
  | cons q qs ih =>
    simp only [List.foldl_cons]
    by_cases hq : lexLe q acc = true
    · rw [if_pos hq]
      obtain ⟨h1, h2, h3⟩ := ih q
      refine ⟨?_, lexLe_trans h2 hq, ?_⟩
      · rcases h1 with h1 | h1
        · exact Or.inr (by simp [h1])
        · exact Or.inr (List.mem_cons_of_mem _ h1)
      · intro r hr
        rcases List.mem_cons.mp hr with rfl | hr
        · exact h2
        · exact h3 r hr
    · rw [if_neg hq]
      obtain ⟨h1, h2, h3⟩ := ih acc
      refine ⟨?_, h2, ?_⟩
      · rcases h1 with h1 | h1
        · exact Or.inl h1
        · exact Or.inr (List.mem_cons_of_mem _ h1)
      · intro r hr
        rcases List.mem_cons.mp hr with rfl | hr
        · rcases lexLe_total r acc with h | h
          · exact absurd h hq
          · exact lexLe_trans h2 h
        · exact h3 r hr

lemma lexMinimum_spec (l : List (List Nat)) (hne : l ≠ []) :
    lexMinimum l ∈ l ∧ ∀ q ∈ l, lexLe (lexMinimum l) q = true := by
  match l, hne with
  | w :: ws, _ =>
    simp only [lexMinimum]
    obtain ⟨h1, h2, h3⟩ := foldl_lexMin_spec ws w
    constructor
    · rcases h1 with h1 | h1
      · simp [h1]
      · exact List.mem_cons_of_mem _ h1
    · intro q hq
      rcases List.mem_cons.mp hq with rfl | hq
      · exact h2
      · exact h3 q hq

/-! ### Bounded minimal search -/

/-- Search the first `k` in `[s, s + c)` satisfying `f` (the unweighted
breadth-first search distance: shortest paths are found at the least edge
count for which some walk reaches the target). -/
def search (f : Nat → Bool) : Nat → Nat → Option Nat
  | _, 0 => none
  | s, c+1 => if f s then some s else search f (s+1) c

lemma search_some {f : Nat → Bool} :
    ∀ {s c k : Nat}, search f s c = some k →
      f k = true ∧ s ≤ k ∧ k < s + c ∧ ∀ j, s ≤ j → j < k → f j = false := by
  intro s c
  induction c generalizing s with
  | zero => intro k h; simp [search] at h
  | succ c ih =>
    intro k h
    simp only [search] at h
    by_cases hf : f s = true
    · rw [if_pos hf] at h
      obtain rfl : s = k := Option.some.inj h
      exact ⟨hf, Nat.le_refl _, by omega, fun j h1 h2 => absurd (Nat.lt_of_lt_of_le h2 h1) (Nat.lt_irrefl _)⟩
    · rw [if_neg hf] at h
      obtain ⟨h1, h2, h3, h4⟩ := ih h
      refine ⟨h1, by omega, by omega, ?_⟩
      intro j hj1 hj2
      rcases Nat.eq_or_lt_of_le hj1 with rfl | hj1
      · exact Bool.eq_false_iff.mpr hf
      · exact h4 j hj1 hj2

lemma search_none {f : Nat → Bool} :
    ∀ {s c : Nat}, search f s c = none → ∀ j, s ≤ j → j < s + c → f j = false := by
  intro s c
  induction c generalizing s with
  | zero => intro _ j h1 h2; omega
  | succ c ih =>
    intro h j hj1 hj2
    simp only [search] at h
    by_cases hf : f s = true
    · rw [if_pos hf] at h; exact absurd h (by simp)
    · rw [if_neg hf] at h
      rcases Nat.eq_or_lt_of_le hj1 with rfl | hj1
      · exact Bool.eq_false_iff.mpr hf
      · exact ih h j hj1 (by omega)

/-! ### `Stack.shortest_path` -/

/-- Reversed walks with `k` edges from `src` that end at `dest`
(`networkx.all_shortest_paths` candidates at distance `k`, reversed). -/
def pathCandidates (g : StackGraph) (src dest : DpName) (k : Nat) : List (List DpName) :=
  (rwalks g src k).filter (fun w => w.head? == some dest)

/-- `Stack.shortest_path(dest_dp, src_dp)`:
`sorted(networkx.all_shortest_paths(self.graph, src_dp, dest_dp))[0]`,
or `[]` on `NetworkXNoPath` / `NodeNotFound` or when there is no graph.
The minimal edge count is searched below the node count (a shortest path is
simple); the lexicographically least path of that length is returned. -/
def shortest_path (g : StackGraph) (dest_dp src_dp : DpName) : List DpName :=
  if src_dp ∈ g.nodes ∧ dest_dp ∈ g.nodes then
    match search (fun k => !(pathCandidates g src_dp dest_dp k).isEmpty) 0 g.nodes.length with
    | some k => lexMinimum ((pathCandidates g src_dp dest_dp k).map List.reverse)
    | none => []
  else []

/-! ### Walk facts used by the `shortest_path` specification -/

lemma isWalkFrom_reverse_iff {g : StackGraph} {a b : DpName} {p : List DpName} :
    IsWalkFrom g a b p ↔ (p.reverse.head? = some b ∧ IsRWalk g a p.reverse) := by
  have hchain : List.Chain' (fun u v => g.adjB u v = true) p.reverse ↔
      List.Chain' (fun u v => g.adjB u v = true) p := by
    rw [List.chain'_reverse]
    constructor
    · intro h
      refine h.imp fun {u v} huv => ?_
      have huv' : g.adjB v u = true := huv
      rw [g.adjB_symm]
      exact huv'
    · intro h
      refine h.imp fun {u v} huv => ?_
      show g.adjB v u = true
      rw [g.adjB_symm]
      exact huv
  unfold IsWalkFrom IsRWalk
  rw [List.head?_reverse, List.getLast?_reverse, hchain]
  tauto

lemma mem_pathCandidates {g : StackGraph} {src dest : DpName} {k : Nat} {w : List DpName} :
    w ∈ pathCandidates g src dest k ↔
      w.length = k + 1 ∧ IsRWalk g src w ∧ w.head? = some dest := by
  simp only [pathCandidates, List.mem_filter, beq_iff_eq]
  constructor
  · rintro ⟨hw, hh⟩
    obtain ⟨h1, h2⟩ := rwalks_sound hw
    exact ⟨h1, h2, hh⟩
  · rintro ⟨h1, h2, h3⟩
    exact ⟨rwalks_complete h1 h2, h3⟩

lemma exists_dup_decomp :
    ∀ (p : List Nat), ¬ p.Nodup → ∃ u x v w, p = u ++ x :: (v ++ x :: w)
  | [], h => absurd List.nodup_nil h
  | y :: t, h => by
    by_cases hy : y ∈ t
    · obtain ⟨v, w, rfl⟩ := List.append_of_mem hy
      exact ⟨[], y, v, w, rfl⟩
    · have ht : ¬ t.Nodup := fun hnd => h (List.nodup_cons.mpr ⟨hy, hnd⟩)
      obtain ⟨u, x, v, w, rfl⟩ := exists_dup_decomp t ht
      exact ⟨y :: u, x, v, w, rfl⟩

/-- Cutting the loop between two occurrences of `x` keeps a walk a walk. -/
lemma walk_cut {g : StackGraph} {a b : DpName} {u v w : List DpName} {x : DpName}
    (h : IsWalkFrom g a b (u ++ x :: (v ++ x :: w))) :
    IsWalkFrom g a b (u ++ x :: w) := by
  obtain ⟨hhead, hlast, hchain⟩ := h
  refine ⟨?_, ?_, ?_⟩
  · cases u with
    | nil => simpa using hhead
    | cons c u' => simpa using hhead
  · rw [List.getLast?_append_cons] at hlast
    rw [List.getLast?_append_cons]
    rw [show x :: (v ++ x :: w) = (x :: v) ++ x :: w from by simp] at hlast
    rw [List.getLast?_append_cons] at hlast
    exact hlast
  · rw [List.append_cons] at hchain ⊢
    obtain ⟨hc1, hc2, hlink⟩ := List.chain'_append.mp hchain
    rw [List.append_cons v x w] at hc2
    obtain ⟨_, hc3, hlink2⟩ := List.chain'_append.mp hc2
    refine List.chain'_append.mpr ⟨hc1, hc3, ?_⟩
    intro s hs t ht
    have hs' : s = x := by
      rw [List.getLast?_concat] at hs
      exact (by simpa using hs : x = s).symm
    subst hs'
    exact hlink2 s (by simp [List.getLast?_concat]) t ht

lemma exists_nodup_walk_aux {g : StackGraph} {a b : DpName} :
    ∀ (n : Nat) (p : List DpName), p.length ≤ n → IsWalkFrom g a b p →
      ∃ q, IsWalkFrom g a b q ∧ q.Nodup ∧ q.length ≤ p.length := by
  intro n
  induction n with
  | zero =>
    intro p hp hw
    have : p = [] := List.eq_nil_of_length_eq_zero (Nat.le_zero.mp hp)
    subst this
    exact absurd hw.1 (by simp)
  | succ n ih =>
    intro p hp hw
    by_cases hdup : p.Nodup
    · exact ⟨p, hw, hdup, Nat.le_refl _⟩
    · obtain ⟨u, x, v, w, rfl⟩ := exists_dup_decomp _ hdup
      have hcut := walk_cut hw
      have hlt : (u ++ x :: w).length < (u ++ x :: (v ++ x :: w)).length := by
        simp only [List.length_append, List.length_cons]
        omega
      obtain ⟨q, hq1, hq2, hq3⟩ := ih (u ++ x :: w) (by omega) hcut
      exact ⟨q, hq1, hq2, Nat.le_trans hq3 (Nat.le_of_lt hlt)⟩

lemma exists_nodup_walk {g : StackGraph} {a b : DpName} {p : List DpName}
    (hw : IsWalkFrom g a b p) :
    ∃ q, IsWalkFrom g a b q ∧ q.Nodup ∧ q.length ≤ p.length :=
  exists_nodup_walk_aux p.length p (Nat.le_refl _) hw

lemma walk_mem_nodes_go {g : StackGraph} (hwf : g.WF) :
    ∀ (p : List DpName) (a b : DpName), a ∈ g.nodes → IsWalkFrom g a b p →
      ∀ x ∈ p, x ∈ g.nodes := by
  intro p
  induction p with
  | nil =>
    rintro a b ha ⟨h, -, -⟩
    simp at h
  | cons y t ih =>
    rintro a b ha ⟨hhead, hlast, hchain⟩ x hx
    simp only [List.head?_cons, Option.some.injEq] at hhead
    subst hhead
    rcases List.mem_cons.mp hx with rfl | hx
    · exact ha
    · cases t with
      | nil => simp at hx
      | cons z t2 =>
        have hchain2 := List.chain'_cons.mp hchain
        have hz : z ∈ g.nodes := g.adjB_mem_right hwf hchain2.1
        refine ih z b hz ⟨rfl, ?_, hchain2.2⟩ x hx
        rwa [List.getLast?_cons_cons] at hlast

lemma walk_mem_nodes {g : StackGraph} (hwf : g.WF) {a b : DpName}
    (ha : a ∈ g.nodes) {p : List DpName} (hw : IsWalkFrom g a b p) :
    ∀ x ∈ p, x ∈ g.nodes :=
  walk_mem_nodes_go hwf p a b ha hw

lemma nodup_length_le {q nodes : List Nat} (hq : q.Nodup)
    (hsub : ∀ x ∈ q, x ∈ nodes) : q.length ≤ nodes.length := by
  classical
  have h1 : q.toFinset.card = q.length := List.toFinset_card_of_nodup hq
  have h2 : q.toFinset ⊆ nodes.toFinset := by
    intro x hx
    rw [List.mem_toFinset] at hx ⊢
    exact hsub x hx
  calc q.length = q.toFinset.card := h1.symm
    _ ≤ nodes.toFinset.card := Finset.card_le_card h2
    _ ≤ nodes.length := nodes.toFinset_card_le

/-- A walk through `x` yields a walk from `x` to the same end. -/
lemma walk_suffix_reachable {g : StackGraph} {a b x : DpName} {p : List DpName}
    (hx : x ∈ p) (hw : IsWalkFrom g a b p) : Reachable g x b := by
  obtain ⟨u, v, rfl⟩ := List.append_of_mem hx
  obtain ⟨hhead, hlast, hchain⟩ := hw
  refine ⟨x :: v, rfl, ?_, ?_⟩
  · rwa [List.getLast?_append_cons] at hlast
  · exact hchain.suffix (List.suffix_append u (x :: v))

/-! ### `shortest_path` specification -/

lemma shortest_path_empty_of_not_mem {g : StackGraph} {a b : DpName}
    (h : a ∉ g.nodes ∨ b ∉ g.nodes) : shortest_path g b a = [] := by
  unfold shortest_path
  rw [if_neg (by tauto)]

lemma shortest_path_isWalk {g : StackGraph} {a b : DpName}
    (h : shortest_path g b a ≠ []) :
    a ∈ g.nodes ∧ b ∈ g.nodes ∧ IsWalkFrom g a b (shortest_path g b a) := by
  by_cases hmem : a ∈ g.nodes ∧ b ∈ g.nodes
  · refine ⟨hmem.1, hmem.2, ?_⟩
    cases hs : search (fun k => !(pathCandidates g a b k).isEmpty) 0 g.nodes.length with
    | none =>
      exfalso
      apply h
      unfold shortest_path
      rw [if_pos hmem, hs]
    | some k =>
      have hr : shortest_path g b a =
          lexMinimum ((pathCandidates g a b k).map List.reverse) := by
        unfold shortest_path
        rw [if_pos hmem, hs]
      have hf := (search_some hs).1
      have hne : (pathCandidates g a b k).map List.reverse ≠ [] := by
        simp only [ne_eq, List.map_eq_nil_iff]
        intro hc
        rw [hc] at hf
        simp at hf
      obtain ⟨hmem', _⟩ := lexMinimum_spec _ hne
      rw [← hr] at hmem'
      obtain ⟨w, hw, heq⟩ := List.mem_map.mp hmem'
      obtain ⟨hlen, hrw, hhead⟩ := mem_pathCandidates.mp hw
      rw [← heq]
      rw [isWalkFrom_reverse_iff]
      rw [List.reverse_reverse]
      exact ⟨hhead, hrw⟩
  · exact absurd (shortest_path_empty_of_not_mem (by tauto)) h

lemma shortest_path_length {g : StackGraph} {a b k : DpName}
    (hmem : a ∈ g.nodes ∧ b ∈ g.nodes)
    (hs : search (fun k => !(pathCandidates g a b k).isEmpty) 0 g.nodes.length = some k) :
    (shortest_path g b a).length = k + 1 ∧
      shortest_path g b a ∈ (pathCandidates g a b k).map List.reverse := by
  have hf := (search_some hs).1
  have hne : (pathCandidates g a b k).map List.reverse ≠ [] := by
    simp only [ne_eq, List.map_eq_nil_iff]
    intro hc
    rw [hc] at hf
    simp at hf
  have hr : shortest_path g b a = lexMinimum ((pathCandidates g a b k).map List.reverse) := by
    unfold shortest_path
    rw [if_pos hmem, hs]
  obtain ⟨hmem', _⟩ := lexMinimum_spec _ hne
  rw [← hr] at hmem'
  obtain ⟨w, hw, heq⟩ := List.mem_map.mp hmem'
  obtain ⟨hlen, _, _⟩ := mem_pathCandidates.mp hw
  refine ⟨?_, hmem'⟩
  rw [← heq, List.length_reverse, hlen]

lemma walk_reverse_mem_candidates {g : StackGraph} {a b : DpName} {q : List DpName}
    (hq : IsWalkFrom g a b q) :
    q.reverse ∈ pathCandidates g a b (q.length - 1) := by
  have h1 : q ≠ [] := by
    intro hc
    rw [hc] at hq
    exact absurd hq.1 (by simp)
  have h2 := isWalkFrom_reverse_iff.mp hq
  apply mem_pathCandidates.mpr
  refine ⟨?_, h2.2, h2.1⟩
  rw [List.length_reverse]
  have := List.length_pos.mpr h1
  omega

lemma shortest_path_minimal {g : StackGraph} {a b : DpName}
    (h : shortest_path g b a ≠ []) :
    ∀ q, IsWalkFrom g a b q → (shortest_path g b a).length ≤ q.length := by
  intro q hq
  have hmem : a ∈ g.nodes ∧ b ∈ g.nodes :=
    ⟨(shortest_path_isWalk h).1, (shortest_path_isWalk h).2.1⟩
  cases hs : search (fun k => !(pathCandidates g a b k).isEmpty) 0 g.nodes.length with
  | none =>
    exfalso
    apply h
    unfold shortest_path
    rw [if_pos hmem, hs]
  | some k =>
    obtain ⟨hlen, _⟩ := shortest_path_length hmem hs
    rw [hlen]
    rcases Nat.lt_or_ge q.length (k + 1) with hlt | hge
    swap
    · exact hge
    exfalso
    have hqne : q ≠ [] := by
      intro hc
      rw [hc] at hq
      exact absurd hq.1 (by simp)
    have hqpos := List.length_pos.mpr hqne
    have hcand := walk_reverse_mem_candidates hq
    have hj : q.length - 1 < k := by omega
    have hfalse := (search_some hs).2.2.2 (q.length - 1) (Nat.zero_le _) hj
    have hempty : pathCandidates g a b (q.length - 1) = [] := by
      rcases hcnil : pathCandidates g a b (q.length - 1) with _ | ⟨w, ws⟩
      · rfl
      · rw [hcnil] at hfalse
        simp at hfalse
    rw [hempty] at hcand
    exact absurd hcand (List.not_mem_nil _)

lemma shortest_path_lexmin {g : StackGraph} {a b : DpName}
    (h : shortest_path g b a ≠ []) :
    ∀ q, IsWalkFrom g a b q → q.length = (shortest_path g b a).length →
      lexLe (shortest_path g b a) q = true := by
  intro q hq hlen
  have hmem : a ∈ g.nodes ∧ b ∈ g.nodes :=
    ⟨(shortest_path_isWalk h).1, (shortest_path_isWalk h).2.1⟩
  cases hs : search (fun k => !(pathCandidates g a b k).isEmpty) 0 g.nodes.length with
  | none =>
    exfalso
    apply h
    unfold shortest_path
    rw [if_pos hmem, hs]
  | some k =>
    obtain ⟨hlen', _⟩ := shortest_path_length hmem hs
    have hr : shortest_path g b a = lexMinimum ((pathCandidates g a b k).map List.reverse) := by
      unfold shortest_path
      rw [if_pos hmem, hs]
    have hf := (search_some hs).1
    have hne : (pathCandidates g a b k).map List.reverse ≠ [] := by
      simp only [ne_eq, List.map_eq_nil_iff]
      intro hc
      rw [hc] at hf
      simp at hf
    obtain ⟨_, hmin⟩ := lexMinimum_spec _ hne
    have hcand := walk_reverse_mem_candidates hq
    have hql : q.length - 1 = k := by
      rw [hlen, hlen'] at *
      omega
    rw [hql] at hcand
    have hqmem : q ∈ (pathCandidates g a b k).map List.reverse := by
      refine List.mem_map.mpr ⟨q.reverse, hcand, List.reverse_reverse q⟩
    rw [hr]
    exact hmin q hqmem

lemma shortest_path_nonempty_of_reachable {g : StackGraph} {a b : DpName}
    (hwf : g.WF) (ha : a ∈ g.nodes) (hb : b ∈ g.nodes) (hr : Reachable g a b) :
    shortest_path g b a ≠ [] := by
  obtain ⟨p, hp⟩ := hr
  obtain ⟨q, hq, hnd, _⟩ := exists_nodup_walk hp
  have hqne : q ≠ [] := by
    intro hc
    rw [hc] at hq
    exact absurd hq.1 (by simp)
  have hqpos := List.length_pos.mpr hqne
  have hqlen : q.length ≤ g.nodes.length :=
    nodup_length_le hnd (walk_mem_nodes hwf ha hq)
  have hcand := walk_reverse_mem_candidates hq
  have hj : q.length - 1 < g.nodes.length := by omega
  cases hs : search (fun k => !(pathCandidates g a b k).isEmpty) 0 g.nodes.length with
  | none =>
    have hfalse := search_none hs (q.length - 1) (Nat.zero_le _) (by omega)
    have hempty : pathCandidates g a b (q.length - 1) = [] := by
      rcases hcnil : pathCandidates g a b (q.length - 1) with _ | ⟨w, ws⟩
      · rfl
      · rw [hcnil] at hfalse
        simp at hfalse
    rw [hempty] at hcand
    exact absurd hcand (List.not_mem_nil _)
  | some k =>
    obtain ⟨hlen, _⟩ := shortest_path_length ⟨ha, hb⟩ hs
    intro hc
    rw [hc] at hlen
    simp at hlen

lemma shortest_path_reachable {g : StackGraph} {a b : DpName}
    (h : shortest_path g b a ≠ []) : Reachable g a b :=
  ⟨_, (shortest_path_isWalk h).2.2⟩

/-- A three-node stack used as concrete input by witnesses:
datapaths 1, 2, 3 with links 1-2, 2-3 and 1-3. -/
def exampleGraph : StackGraph :=
  ⟨[1, 2, 3],
   [(1, 2, ((1, 1), (2, 1))), (2, 3, ((2, 2), (3, 1))), (1, 3, ((1, 2), (3, 2)))]⟩

/-! ### `Stack.modify_topology` (add/remove one stack link) -/

/-- Python tuple order on `(dp.name, port.name)` prefixes
(`sorted((sort_edge_a, sort_edge_z))` in `canonical_edge`). -/
def pairLe (a b : Endp) : Bool :=
  a.1 < b.1 || (a.1 == b.1 && a.2 ≤ b.2)

/-- `canonical_edge` of `Stack.modify_topology`: the two endpoints sorted. -/
def canonical_edge (dpName : DpName) (portName : PortName)
    (peerDp : DpName) (peerPort : PortName) : EdgeKey :=
  let ea : Endp := (dpName, portName)
  let ez : Endp := (peerDp, peerPort)
  if pairLe ea ez then (ea, ez) else (ez, ea)

/-- `networkx` node insertion: a repeated node is not duplicated. -/
def addNode (g : StackGraph) (n : DpName) : StackGraph :=
  if n ∈ g.nodes then g else { g with nodes := g.nodes ++ [n] }

/-- `(u, v, key) in graph.edges` of a `networkx.MultiGraph`
(either orientation). -/
def hasEdge (g : StackGraph) (u v : DpName) (k : EdgeKey) : Bool :=
  g.edges.any fun e =>
    ((e.1 == u && e.2.1 == v) || (e.1 == v && e.2.1 == u)) && e.2.2 == k

/-- `networkx.MultiGraph.add_edge(u, v, key=k)`: inserts both endpoints as
nodes; an edge with the same key between the same nodes is not duplicated
(its attribute data would merely be replaced). -/
def add_edge (g : StackGraph) (u v : DpName) (k : EdgeKey) : StackGraph :=
  let g1 := addNode (addNode g u) v
  if hasEdge g1 u v k then g1 else { g1 with edges := g1.edges ++ [(u, v, k)] }

/-- `networkx.MultiGraph.remove_edge(u, v, k)` (keys are unique per node
pair, so removing all matches removes the one keyed edge). -/
def remove_edge (g : StackGraph) (u v : DpName) (k : EdgeKey) : StackGraph :=
  { g with edges := g.edges.filter fun e =>
      !(((e.1 == u && e.2.1 == v) || (e.1 == v && e.2.1 == u)) && e.2.2 == k) }

/-- A configured stack port as used by `Stack.modify_topology`:
its name and its configured peer (`port.stack['dp']`, `port.stack['port']`). -/
structure ConfPort where
  name : PortName
  peerDp : DpName
  peerPort : PortName
  deriving DecidableEq, Repr

/-- `Stack.modify_topology(graph, dp, port, add)`: adds or removes the
canonically keyed edge for this dp/port, returning the edge name. -/
def modify_topology (g : StackGraph) (dpName : DpName) (port : ConfPort)
    (add : Bool) : StackGraph × EdgeKey :=
  let edge := canonical_edge dpName port.name port.peerDp port.peerPort
  (if add then add_edge g edge.1.1 edge.2.1 edge
   else if hasEdge g edge.1.1 edge.2.1 edge then
     remove_edge g edge.1.1 edge.2.1 edge
   else g,
   edge)

lemma pairLe_total (a b : Endp) : pairLe a b = true ∨ pairLe b a = true := by
  obtain ⟨a1, a2⟩ := a
  obtain ⟨b1, b2⟩ := b
  simp only [pairLe, Bool.or_eq_true, Bool.and_eq_true, beq_iff_eq,
    decide_eq_true_eq]
  rcases Nat.lt_trichotomy a1 b1 with h | h | h
  · exact Or.inl (Or.inl h)
  · subst h
    by_cases h2 : a2 ≤ b2
    · exact Or.inl (Or.inr ⟨rfl, h2⟩)
    · exact Or.inr (Or.inr ⟨rfl, le_of_not_le h2⟩)
  · exact Or.inr (Or.inl h)

lemma pairLe_antisymm {a b : Endp} (h1 : pairLe a b = true)
    (h2 : pairLe b a = true) : a = b := by
  obtain ⟨a1, a2⟩ := a
  obtain ⟨b1, b2⟩ := b
  simp only [pairLe, Bool.or_eq_true, Bool.and_eq_true, beq_iff_eq,
    decide_eq_true_eq] at h1 h2
  rcases h1 with h1 | ⟨h1e, h1le⟩
  · rcases h2 with h2 | ⟨h2e, _⟩
    · exact absurd h2 (Nat.lt_asymm h1)
    · exact absurd h1 (h2e ▸ Nat.lt_irrefl _)
  · rcases h2 with h2 | ⟨h2e, h2le⟩
    · exact absurd h2 (h1e ▸ Nat.lt_irrefl _)
    · have : a2 = b2 := Nat.le_antisymm h1le h2le
      simp [h1e, this]

/-- The canonical edge is the same no matter which endpoint declares it. -/
lemma canonical_edge_symm (a pa b pb : Nat) :
    canonical_edge a pa b pb = canonical_edge b pb a pa := by
  unfold canonical_edge
  by_cases h1 : pairLe (a, pa) (b, pb) = true <;>
    by_cases h2 : pairLe (b, pb) (a, pa) = true
  · have := pairLe_antisymm h1 h2
    simp_all
  · simp [h1, h2]
  · simp [h1, h2]
  · rcases pairLe_total (a, pa) (b, pb) with h | h
    · exact absurd h h1
    · exact absurd h h2

lemma mem_addNode_self (g : StackGraph) (n : DpName) : n ∈ (addNode g n).nodes := by
  unfold addNode
  by_cases h : n ∈ g.nodes
  · rwa [if_pos h]
  · rw [if_neg h]
    simp

lemma mem_addNode_of_mem (g : StackGraph) (n m : DpName) (h : m ∈ g.nodes) :
    m ∈ (addNode g n).nodes := by
  unfold addNode
  by_cases hn : n ∈ g.nodes
  · rwa [if_pos hn]
  · rw [if_neg hn]
    simp [h]

lemma addNode_of_mem {g : StackGraph} {n : DpName} (h : n ∈ g.nodes) :
    addNode g n = g := by
  unfold addNode
  rw [if_pos h]

lemma addNode_edges (g : StackGraph) (n : DpName) : (addNode g n).edges = g.edges := by
  unfold addNode
  by_cases h : n ∈ g.nodes
  · rw [if_pos h]
  · rw [if_neg h]

lemma modify_topology_add_eq (g : StackGraph) (d : DpName) (p : ConfPort) :
    modify_topology g d p true =
      (add_edge g (canonical_edge d p.name p.peerDp p.peerPort).1.1
        (canonical_edge d p.name p.peerDp p.peerPort).2.1
        (canonical_edge d p.name p.peerDp p.peerPort),
       canonical_edge d p.name p.peerDp p.peerPort) := rfl

lemma add_edge_nodes (g : StackGraph) (u v : DpName) (k : EdgeKey) :
    (add_edge g u v k).nodes = (addNode (addNode g u) v).nodes := by
  unfold add_edge
  cases h : hasEdge (addNode (addNode g u) v) u v k
  · rw [if_neg (by simp [h])]
  · rw [if_pos (by simp [h])]

lemma add_edge_of_hasEdge {g : StackGraph} {u v : DpName} {k : EdgeKey}
    (hu : u ∈ g.nodes) (hv : v ∈ g.nodes) (h : hasEdge g u v k = true) :
    add_edge g u v k = g := by
  unfold add_edge
  rw [addNode_of_mem hu, addNode_of_mem hv, if_pos h]

lemma add_edge_fresh {g : StackGraph} {u v : DpName} {k : EdgeKey}
    (h : hasEdge g u v k = false) :
    add_edge g u v k =
      { addNode (addNode g u) v with edges := g.edges ++ [(u, v, k)] } := by
  unfold add_edge
  have h2 : hasEdge (addNode (addNode g u) v) u v k = false := by
    unfold hasEdge
    rw [addNode_edges, addNode_edges]
    exact h
  rw [if_neg (by simp [h2])]
  have h3 : (addNode (addNode g u) v).edges = g.edges := by
    rw [addNode_edges, addNode_edges]
  rw [h3]

/-- C7: declaring the same stack link from both endpoints produces exactly
one canonically-keyed edge, the key is the sorted endpoint pair, and
repeating either `modify_topology` call leaves the graph unchanged. -/
theorem C7_modify_topology_symmetric_idempotent
    (g0 : StackGraph) (aName bName : DpName) (pA pB : ConfPort) (k : EdgeKey)
    (hA : pA.peerDp = bName ∧ pA.peerPort = pB.name)
    (hB : pB.peerDp = aName ∧ pB.peerPort = pA.name)
    (hkdef : k = canonical_edge aName pA.name bName pB.name)
    (hfresh : ∀ e ∈ g0.edges, e.2.2 ≠ k) :
    (modify_topology g0 aName pA true).2 = k ∧
    (modify_topology (modify_topology g0 aName pA true).1 bName pB true).2 = k ∧
    (modify_topology (modify_topology g0 aName pA true).1 bName pB true).1 =
        (modify_topology g0 aName pA true).1 ∧
    ((modify_topology g0 aName pA true).1.edges.filter
        (fun e => e.2.2 == k)).length = 1 ∧
    (modify_topology (modify_topology g0 aName pA true).1 aName pA true).1 =
        (modify_topology g0 aName pA true).1 := by
  obtain ⟨hA1, hA2⟩ := hA
  obtain ⟨hB1, hB2⟩ := hB
  have hkA : canonical_edge aName pA.name pA.peerDp pA.peerPort = k := by
    rw [hA1, hA2, hkdef]
  have hkB : canonical_edge bName pB.name pB.peerDp pB.peerPort = k := by
    rw [hB1, hB2, hkdef, canonical_edge_symm]
  have h1 : modify_topology g0 aName pA true = (add_edge g0 k.1.1 k.2.1 k, k) := by
    rw [modify_topology_add_eq, hkA]
  have hfe : hasEdge g0 k.1.1 k.2.1 k = false := by
    apply Bool.eq_false_iff.mpr
    intro hc
    unfold hasEdge at hc
    rw [List.any_eq_true] at hc
    obtain ⟨e, he, hp⟩ := hc
    have hkey := (Bool.and_eq_true .. |>.mp hp).2
    exact hfresh e he (eq_of_beq hkey)
  have hG1 : add_edge g0 k.1.1 k.2.1 k =
      { addNode (addNode g0 k.1.1) k.2.1 with
        edges := g0.edges ++ [(k.1.1, k.2.1, k)] } := add_edge_fresh hfe
  have hedges1 : (modify_topology g0 aName pA true).1.edges =
      g0.edges ++ [(k.1.1, k.2.1, k)] := by
    rw [h1, hG1]
  have hn1 : k.1.1 ∈ (modify_topology g0 aName pA true).1.nodes := by
    rw [h1]
    show k.1.1 ∈ (add_edge g0 k.1.1 k.2.1 k).nodes
    rw [add_edge_nodes]
    exact mem_addNode_of_mem _ _ _ (mem_addNode_self _ _)
  have hn2 : k.2.1 ∈ (modify_topology g0 aName pA true).1.nodes := by
    rw [h1]
    show k.2.1 ∈ (add_edge g0 k.1.1 k.2.1 k).nodes
    rw [add_edge_nodes]
    exact mem_addNode_self _ _
  have h2 : modify_topology (modify_topology g0 aName pA true).1 bName pB true =
      (add_edge (modify_topology g0 aName pA true).1 k.1.1 k.2.1 k, k) := by
    rw [modify_topology_add_eq, hkB]
  have h3 : modify_topology (modify_topology g0 aName pA true).1 aName pA true =
      (add_edge (modify_topology g0 aName pA true).1 k.1.1 k.2.1 k, k) := by
    rw [modify_topology_add_eq, hkA]
  have hhas : hasEdge (modify_topology g0 aName pA true).1 k.1.1 k.2.1 k = true := by
    unfold hasEdge
    rw [hedges1]
    simp
  have hrepeat : add_edge (modify_topology g0 aName pA true).1 k.1.1 k.2.1 k =
      (modify_topology g0 aName pA true).1 := add_edge_of_hasEdge hn1 hn2 hhas
  refine ⟨by rw [h1], by rw [h2], by rw [h2, hrepeat], ?_, by rw [h3, hrepeat]⟩
  rw [hedges1, List.filter_append]
  have hbase : g0.edges.filter (fun e => e.2.2 == k) = [] := by
    rw [List.filter_eq_nil_iff]
    intro e he
    simp only [beq_iff_eq]
    exact hfresh e he
  rw [hbase]
  simp

/-- Witness for C7: dp 1 port 1 peering with dp 2 port 1, declared from both
sides starting from the empty graph. -/
theorem C7_modify_topology_symmetric_idempotent_witness :
    (modify_topology ⟨[], []⟩ 1 ⟨1, 2, 1⟩ true).2 = ((1, 1), (2, 1)) ∧
    (modify_topology (modify_topology ⟨[], []⟩ 1 ⟨1, 2, 1⟩ true).1 2 ⟨1, 1, 1⟩ true).2 =
        ((1, 1), (2, 1)) ∧
    (modify_topology (modify_topology ⟨[], []⟩ 1 ⟨1, 2, 1⟩ true).1 2 ⟨1, 1, 1⟩ true).1 =
        (modify_topology ⟨[], []⟩ 1 ⟨1, 2, 1⟩ true).1 ∧
    ((modify_topology ⟨[], []⟩ 1 ⟨1, 2, 1⟩ true).1.edges.filter
        (fun e => e.2.2 == (((1, 1), (2, 1)) : EdgeKey))).length = 1 ∧
    (modify_topology (modify_topology ⟨[], []⟩ 1 ⟨1, 2, 1⟩ true).1 1 ⟨1, 2, 1⟩ true).1 =
        (modify_topology ⟨[], []⟩ 1 ⟨1, 2, 1⟩ true).1 :=
  C7_modify_topology_symmetric_idempotent ⟨[], []⟩ 1 2 ⟨1, 2, 1⟩ ⟨1, 1, 1⟩
    ((1, 1), (2, 1)) (by decide) (by decide) (by decide) (by decide)

/-- C1: for every stack graph and datapaths `a`, `b` with `b` reachable from
`a`, `Stack.shortest_path(b, src_dp=a)` returns a non-empty list starting at
`a`, ending at `b`, whose consecutive pairs are edges, minimal in length among
all `a`-to-`b` walks and lexicographically least among the walks of that
minimal length; when `b` is unreachable or either node is absent it returns
the empty list. -/
theorem C1_shortest_path_correct (g : StackGraph) (hwf : g.WF) (a b : DpName) :
    ((a ∈ g.nodes ∧ b ∈ g.nodes ∧ Reachable g a b) →
      shortest_path g b a ≠ [] ∧
      (shortest_path g b a).head? = some a ∧
      (shortest_path g b a).getLast? = some b ∧
      List.Chain' (fun u v => g.adjB u v = true) (shortest_path g b a) ∧
      (∀ q, IsWalkFrom g a b q → (shortest_path g b a).length ≤ q.length) ∧
      (∀ q, IsWalkFrom g a b q → q.length = (shortest_path g b a).length →
        lexLe (shortest_path g b a) q = true)) ∧
    ((¬ Reachable g a b ∨ a ∉ g.nodes ∨ b ∉ g.nodes) →
      shortest_path g b a = []) := by
  constructor
  · rintro ⟨ha, hb, hr⟩
    have hne := shortest_path_nonempty_of_reachable hwf ha hb hr
    obtain ⟨_, _, hwalk⟩ := shortest_path_isWalk hne
    exact ⟨hne, hwalk.1, hwalk.2.1, hwalk.2.2,
      shortest_path_minimal hne, shortest_path_lexmin hne⟩
  · intro hcase
    rcases hcase with hur | hmem | hmem
    · by_cases hsp : shortest_path g b a = []
      · exact hsp
      · exact absurd (shortest_path_reachable hsp) hur
    · exact shortest_path_empty_of_not_mem (Or.inl hmem)
    · exact shortest_path_empty_of_not_mem (Or.inr hmem)

/-- Witness for C1 on the concrete three-node stack: 1 and 3 are both
present and connected, and the returned path is non-empty, spans 1 to 3,
follows edges, and is the length-minimal lexicographically-least walk. -/
theorem C1_shortest_path_correct_witness :
    shortest_path exampleGraph 3 1 ≠ [] ∧
    (shortest_path exampleGraph 3 1).head? = some 1 ∧
    (shortest_path exampleGraph 3 1).getLast? = some 3 ∧
    List.Chain' (fun u v => exampleGraph.adjB u v = true) (shortest_path exampleGraph 3 1) ∧
    (∀ q, IsWalkFrom exampleGraph 1 3 q → (shortest_path exampleGraph 3 1).length ≤ q.length) ∧
    (∀ q, IsWalkFrom exampleGraph 1 3 q → q.length = (shortest_path exampleGraph 3 1).length →
      lexLe (shortest_path exampleGraph 3 1) q = true) :=
  (C1_shortest_path_correct exampleGraph (by decide) 1 3).1
    ⟨by decide, by decide,
      ⟨[1, 3], rfl, rfl, List.chain'_cons.mpr ⟨by decide, List.chain'_singleton 3⟩⟩⟩

/-! ### `Stack.resolve_topology` (configuration load) -/

/-- `faucet.conf.test_config_condition`: raises `InvalidConfigError` when the
condition holds (its collaborator `conf.py` is upstream of this subsystem). -/
def test_config_condition (cond : Bool) (msg : String) : Except String Unit :=
  if cond then .error msg else .ok ()

/-- Run a per-element configuration check, stopping at the first error
(a Python `for` loop of `test_config_condition` calls). -/
def checkAll {α : Type} (f : α → Except String Unit) : List α → Except String Unit
  | [] => .ok ()
  | x :: t =>
    match f x with
    | .error e => .error e
    | .ok _ => checkAll f t

/-- Python truthiness of `dp.stack.priority` (`None` and `0` are falsy). -/
def pyTruthyInt : Option Int → Bool
  | none => false
  | some n => n != 0

/-- A configured datapath as seen by `Stack.resolve_topology`: name, whether
it has a `stack` section, its stack priority, and its declared stack ports. -/
structure ConfDp where
  name : DpName
  hasStack : Bool
  priority : Option Int
  ports : List ConfPort
  deriving DecidableEq, Repr

/-- `Counter[edge_name] += 1` on an association list. -/
def bumpCount (cnts : List (EdgeKey × Nat)) (k : EdgeKey) : List (EdgeKey × Nat) :=
  match cnts with
  | [] => [(k, 1)]
  | (k', n) :: t => if k' == k then (k', n + 1) :: t else (k', n) :: bumpCount t k

/-- The count recorded for `k` (0 when absent). -/
def lookupCount (cnts : List (EdgeKey × Nat)) (k : EdgeKey) : Nat :=
  ((cnts.find? (fun e => e.1 == k)).map (fun e => e.2)).getD 0

/-- The graph-building loop of `resolve_topology`: add each datapath as a
node, `add_link` (modelled from the spec: `Stack.add_link` is referenced by
`resolve_topology` but not defined under src/; per the spec it inserts the
canonically keyed edge, i.e. `modify_topology` with `add=True`) every
declared port's edge, and count each canonical edge name. -/
def buildTopology (dps : List ConfDp) : StackGraph × List (EdgeKey × Nat) :=
  dps.foldl
    (fun st d =>
      d.ports.foldl
        (fun st2 p =>
          ((modify_topology st2.1 d.name p true).1,
           bumpCount st2.2 (modify_topology st2.1 d.name p true).2))
        (addNode st.1 d.name, st.2))
    (⟨[], []⟩, [])

/-- All canonical edge names declared by the given datapaths, in order. -/
def allDeclKeys (dps : List ConfDp) : List EdgeKey :=
  dps.foldr
    (fun d acc =>
      d.ports.map (fun p => canonical_edge d.name p.name p.peerDp p.peerPort) ++ acc) []

/-- Stable ascending sort by configured priority
(`sorted(stack_priority_dps, key=lambda x: x.stack.priority)`). -/
def insertByPriority (d : ConfDp) : List ConfDp → List ConfDp
  | [] => [d]
  | e :: t =>
    if e.priority.getD 0 < d.priority.getD 0 then e :: insertByPriority d t
    else d :: e :: t

def sortByPriority : List ConfDp → List ConfDp
  | [] => []
  | d :: t => insertByPriority d (sortByPriority t)

/-- `Stack.longest_path_to_root_len`. -/
def longest_path_to_root_len (g : StackGraph) (root : DpName) : Option Nat :=
  if g.nodes.isEmpty then none
  else some ((g.nodes.map (fun dp => (shortest_path g root dp).length)).foldl max 0)

/-- The candidate names of `resolve_topology`, ordered by ascending
priority (`self.roots_names`). -/
def rootsNamesOf (dps : List ConfDp) : List DpName :=
  (sortByPriority ((dps.filter (fun d => d.hasStack)).filter
    (fun d => pyTruthyInt d.priority))).map (fun d => d.name)

/-- `self.root_name` after `resolve_topology`: the first candidate, unless a
reload carries a previously chosen root that is still a candidate. -/
def rootNameOf (dps : List ConfDp) (meta_root : Option DpName) : DpName :=
  match meta_root with
  | some r => if r ∈ rootsNamesOf dps then r else (rootsNamesOf dps).head?.getD 0
  | none => (rootsNamesOf dps).head?.getD 0

/-- The edge-count and connectivity checks at the end of
`resolve_topology`, producing the resolved graph on success. -/
def resolve_topology_checks (selfName root_name : DpName)
    (roots_names : List DpName) (built : StackGraph × List (EdgeKey × Nat)) :
    Except String (Option StackGraph × Option (List DpName) × Option DpName × Option Bool) :=
  match checkAll
      (fun ec => test_config_condition (decide (ec.2 ≠ 2))
        "defined only in one direction") built.2 with
  | .error e => .error e
  | .ok _ =>
    if built.1.edges.length ≠ 0 ∧ selfName ∈ built.1.nodes then
      match checkAll
          (fun dp => test_config_condition
            (decide ((shortest_path built.1 root_name dp).length = 0))
            "not connected to stack") built.1.nodes with
      | .error e => .error e
      | .ok _ =>
        .ok (some built.1, some roots_names, some root_name,
          if (longest_path_to_root_len built.1 root_name).getD 0 > 2 then some true
          else none)
    else .ok (none, some roots_names, some root_name, none)

/-- `Stack.resolve_topology(dps, meta_dp_state)`, returning
`(graph, roots_names, root_name, root_flood_reflection)` of the stack after
resolution, or the configuration error raised.  (`route_learning`, derived
from VLAN data, and the final `recalculate_ports()` call — a method not under
src/ that recomputes derived port sets — do not affect these outputs.) -/
def resolve_topology (selfName : DpName) (selfPorts : List ConfPort)
    (dps : List ConfDp) (meta_root : Option DpName) :
    Except String (Option StackGraph × Option (List DpName) × Option DpName × Option Bool) :=
  let stack_dps := dps.filter (fun d => d.hasStack)
  let stack_priority_dps := stack_dps.filter (fun d => pyTruthyInt d.priority)
  let stack_port_dps := dps.filter (fun d => !d.ports.isEmpty)
  if stack_priority_dps.isEmpty then
    match test_config_condition (!stack_dps.isEmpty) "stacking enabled but no root DP" with
    | .error e => .error e
    | .ok _ => .ok (none, none, none, none)
  else if selfPorts.isEmpty then .ok (none, none, none, none)
  else
    match checkAll
        (fun d => test_config_condition (decide (d.priority.getD 0 ≤ 0))
          "stack priority must be > 0") stack_priority_dps with
    | .error e => .error e
    | .ok _ =>
      resolve_topology_checks selfName (rootNameOf dps meta_root)
        (rootsNamesOf dps) (buildTopology stack_port_dps)

lemma lookupCount_cons (a : EdgeKey) (m : Nat) (rest : List (EdgeKey × Nat))
    (k : EdgeKey) :
    lookupCount ((a, m) :: rest) k = if a = k then m else lookupCount rest k := by
  unfold lookupCount
  by_cases h : a = k
  · rw [List.find?_cons_of_pos _ (by simp [h])]
    simp [h]
  · rw [List.find?_cons_of_neg _ (by simp [h])]
    rw [if_neg h]

lemma lookupCount_bumpCount (cnts : List (EdgeKey × Nat)) (k0 k : EdgeKey) :
    lookupCount (bumpCount cnts k0) k =
      lookupCount cnts k + (if k = k0 then 1 else 0) := by
  induction cnts with
  | nil =>
    show lookupCount [(k0, 1)] k = lookupCount [] k + _
    rw [lookupCount_cons]
    by_cases h : k = k0
    · rw [if_pos h.symm, if_pos h]
      simp [lookupCount]
    · rw [if_neg (fun hc => h hc.symm), if_neg h]
      simp [lookupCount]
  | cons e t ih =>
    obtain ⟨a, m⟩ := e
    by_cases hk : a = k0
    · subst hk
      rw [show bumpCount ((a, m) :: t) a = (a, m + 1) :: t from by simp [bumpCount]]
      rw [lookupCount_cons, lookupCount_cons]
      by_cases h : a = k
      · rw [if_pos h, if_pos h, if_pos h.symm]
      · rw [if_neg h, if_neg h, if_neg (fun hc => h hc.symm)]
        simp
    · rw [show bumpCount ((a, m) :: t) k0 = (a, m) :: bumpCount t k0 from by
        simp [bumpCount, hk]]
      rw [lookupCount_cons, lookupCount_cons]
      by_cases h : a = k
      · rw [if_pos h, if_pos h]
        rw [if_neg (show ¬k = k0 from by rw [← h]; exact fun hc => hk hc)]
        simp
      · rw [if_neg h, if_neg h]
        exact ih

lemma lookupCount_mem {cnts : List (EdgeKey × Nat)} {k : EdgeKey}
    (h : lookupCount cnts k ≠ 0) : (k, lookupCount cnts k) ∈ cnts := by
  cases hf : cnts.find? (fun e => e.1 == k) with
  | none =>
    exfalso
    apply h
    unfold lookupCount
    rw [hf]
    rfl
  | some e =>
    have hmem := List.mem_of_find?_eq_some hf
    have hp := List.find?_some hf
    have he : e.1 = k := by simpa using hp
    have hv : lookupCount cnts k = e.2 := by
      unfold lookupCount
      rw [hf]
      rfl
    rw [hv, ← he]
    simpa using hmem

lemma counts_foldl_ports (d : DpName) (ps : List ConfPort)
    (st : StackGraph × List (EdgeKey × Nat)) (k : EdgeKey) :
    lookupCount
      (ps.foldl
        (fun st2 p =>
          ((modify_topology st2.1 d p true).1,
           bumpCount st2.2 (modify_topology st2.1 d p true).2)) st).2 k =
    lookupCount st.2 k +
      (ps.map (fun p => canonical_edge d p.name p.peerDp p.peerPort)).count k := by
  induction ps generalizing st with
  | nil => simp
  | cons p t ih =>
    simp only [List.foldl_cons, List.map_cons]
    rw [ih]
    have hkey : (modify_topology st.1 d p true).2 =
        canonical_edge d p.name p.peerDp p.peerPort := rfl
    rw [show (((modify_topology st.1 d p true).1,
        bumpCount st.2 (modify_topology st.1 d p true).2)).2 =
        bumpCount st.2 (canonical_edge d p.name p.peerDp p.peerPort) from by rw [← hkey]]
    rw [lookupCount_bumpCount]
    rw [List.count_cons]
    by_cases h : k = canonical_edge d p.name p.peerDp p.peerPort
    · rw [if_pos h, if_pos (by simp only [beq_iff_eq]; exact h.symm)]
      omega
    · rw [if_neg h, if_neg (by simp only [beq_iff_eq]; exact fun hc => h hc.symm)]
      omega

lemma counts_foldl_dps (l : List ConfDp) (st : StackGraph × List (EdgeKey × Nat))
    (k : EdgeKey) :
    lookupCount
      (l.foldl
        (fun st d =>
          d.ports.foldl
            (fun st2 p =>
              ((modify_topology st2.1 d.name p true).1,
               bumpCount st2.2 (modify_topology st2.1 d.name p true).2))
            (addNode st.1 d.name, st.2)) st).2 k =
    lookupCount st.2 k + (allDeclKeys l).count k := by
  induction l generalizing st with
  | nil => simp [allDeclKeys]
  | cons d t ih =>
    simp only [List.foldl_cons]
    rw [ih]
    rw [counts_foldl_ports]
    have h2 : lookupCount ((addNode st.1 d.name, st.2) :
        StackGraph × List (EdgeKey × Nat)).2 k = lookupCount st.2 k := rfl
    rw [h2]
    have : allDeclKeys (d :: t) =
        d.ports.map (fun p => canonical_edge d.name p.name p.peerDp p.peerPort) ++
          allDeclKeys t := rfl
    rw [this, List.count_append]
    omega

lemma buildTopology_counts (dps : List ConfDp) (k : EdgeKey) :
    lookupCount (buildTopology dps).2 k = (allDeclKeys dps).count k := by
  unfold buildTopology
  rw [counts_foldl_dps]
  simp [lookupCount]

lemma checkAll_error_of_mem {α : Type} (f : α → Except String Unit) {l : List α}
    {x : α} {msg : String} (hx : x ∈ l) (hf : f x = .error msg) :
    ∃ m, checkAll f l = .error m := by
  induction l with
  | nil => simp at hx
  | cons y t ih =>
    show ∃ m, (match f y with
      | .error e => Except.error e
      | .ok _ => checkAll f t) = Except.error m
    cases hy : f y with
    | error e => exact ⟨e, rfl⟩
    | ok u =>
      rcases List.mem_cons.mp hx with rfl | hx'
      · rw [hy] at hf
        exact absurd hf (by simp)
      · exact ih hx'

/-- C8: a stack link whose canonical edge name is declared by only one
endpoint (counted once instead of exactly twice) makes `resolve_topology`
raise a configuration error, so no stack graph is produced. -/
theorem C8_one_sided_link_rejected
    (selfName : DpName) (selfPorts : List ConfPort) (dps : List ConfDp)
    (meta_root : Option DpName) (k : EdgeKey)
    (hprio : (dps.filter (fun d => d.hasStack)).filter (fun d => pyTruthyInt d.priority) ≠ [])
    (hpos : ∀ d ∈ (dps.filter (fun d => d.hasStack)).filter (fun d => pyTruthyInt d.priority),
      0 < d.priority.getD 0)
    (hself : selfPorts ≠ [])
    (honce : (allDeclKeys (dps.filter (fun d => !d.ports.isEmpty))).count k = 1) :
    ∃ msg, resolve_topology selfName selfPorts dps meta_root = .error msg := by
  unfold resolve_topology
  rw [if_neg (by simpa using hprio)]
  rw [if_neg (by simpa using hself)]
  have hcheck1 : checkAll
      (fun d => test_config_condition (decide (d.priority.getD 0 ≤ 0))
        "stack priority must be > 0")
      ((dps.filter (fun d => d.hasStack)).filter (fun d => pyTruthyInt d.priority)) =
      .ok () := by
    generalize hl : (dps.filter (fun d => d.hasStack)).filter (fun d => pyTruthyInt d.priority) = l at hpos
    clear hl hprio
    induction l with
    | nil => rfl
    | cons d t ih =>
      have hd := hpos d (by simp)
      simp only [checkAll, test_config_condition]
      rw [if_neg (by simpa using Int.not_le.mpr hd)]
      exact ih (fun e he => hpos e (List.mem_cons_of_mem _ he))
  rw [hcheck1]
  have hcount := buildTopology_counts (dps.filter (fun d => !d.ports.isEmpty)) k
  rw [honce] at hcount
  have hmem : (k, lookupCount (buildTopology (dps.filter (fun d => !d.ports.isEmpty))).2 k) ∈
      (buildTopology (dps.filter (fun d => !d.ports.isEmpty))).2 :=
    lookupCount_mem (by rw [hcount]; exact Nat.one_ne_zero)
  rw [hcount] at hmem
  have hfx : test_config_condition (decide ((1 : Nat) ≠ 2))
      "defined only in one direction" = Except.error "defined only in one direction" := by
    simp [test_config_condition]
  obtain ⟨m, hcheck2⟩ := checkAll_error_of_mem (fun (ec : EdgeKey × Nat) =>
      test_config_condition (decide (ec.2 ≠ 2)) "defined only in one direction")
    hmem hfx
  refine ⟨m, ?_⟩
  show resolve_topology_checks selfName (rootNameOf dps meta_root)
      (rootsNamesOf dps) (buildTopology (dps.filter (fun d => !d.ports.isEmpty))) =
    Except.error m
  unfold resolve_topology_checks
  rw [hcheck2]

/-- Witness for C8: dp 1 declares a link to dp 2, but dp 2 declares no ports,
so the canonical edge name is counted once and loading fails. -/
theorem C8_one_sided_link_rejected_witness :
    ∃ msg, resolve_topology 1 [⟨1, 2, 1⟩]
      [⟨1, true, some 1, [⟨1, 2, 1⟩]⟩, ⟨2, true, none, []⟩] none = .error msg :=
  C8_one_sided_link_rejected 1 [⟨1, 2, 1⟩]
    [⟨1, true, some 1, [⟨1, 2, 1⟩]⟩, ⟨2, true, none, []⟩] none ((1, 1), (2, 1))
    (by decide) (by decide) (by decide) (by decide)

/-! ### Stack ports and `ValveStackManager._reset_peer_distances` -/

/-- A runtime stack port: its number, configured peer datapath and peer port
number, its stack state (`is_stack_up`), whether `running()` holds, and its
`loop_protect_external` flag. -/
structure StackPort where
  number : Nat
  peerDp : DpName
  peerPort : Nat
  stackUp : Bool
  running : Bool
  lpe : Bool
  deriving DecidableEq, Repr

/-- Modelled from the spec: `canonical_port_order` is an externally supplied
ordering function (`dp.py`, not under src/); per the spec's note it orders
ports by ascending port number.  Stable insertion sort by `number`. -/
def insertPort (p : StackPort) : List StackPort → List StackPort
  | [] => [p]
  | q :: t => if q.number < p.number then q :: insertPort p t else p :: q :: t

def canonical_port_order : List StackPort → List StackPort
  | [] => []
  | p :: t => insertPort p (canonical_port_order t)

lemma mem_insertPort (p x : StackPort) (l : List StackPort) :
    x ∈ insertPort p l ↔ x = p ∨ x ∈ l := by
  induction l with
  | nil => simp [insertPort]
  | cons q t ih =>
    simp only [insertPort]
    by_cases h : q.number < p.number
    · rw [if_pos h]
      simp only [List.mem_cons, ih]
      tauto
    · rw [if_neg h]
      simp

lemma mem_canonical_port_order (x : StackPort) (l : List StackPort) :
    x ∈ canonical_port_order l ↔ x ∈ l := by
  induction l with
  | nil => simp [canonical_port_order]
  | cons p t ih =>
    simp only [canonical_port_order, mem_insertPort, List.mem_cons, ih]

lemma canonical_port_order_head_min :
    ∀ (l : List StackPort) (p : StackPort) (rest : List StackPort),
      canonical_port_order l = p :: rest → ∀ q ∈ l, p.number ≤ q.number := by
  intro l
  induction l with
  | nil => intro p rest h; exact absurd h (by simp [canonical_port_order])
  | cons x t ih =>
    intro p rest h q hq
    simp only [canonical_port_order] at h
    cases hc : canonical_port_order t with
    | nil =>
      rw [hc] at h
      simp only [insertPort] at h
      obtain ⟨rfl, -⟩ := List.cons.injEq .. ▸ h
      rcases List.mem_cons.mp hq with rfl | hq
      · exact Nat.le_refl _
      · rw [← mem_canonical_port_order, hc] at hq
        simp at hq
    | cons y t' =>
      rw [hc] at h
      simp only [insertPort] at h
      by_cases hxy : y.number < x.number
      · rw [if_pos hxy] at h
        obtain ⟨rfl, -⟩ := List.cons.injEq .. ▸ h
        rcases List.mem_cons.mp hq with rfl | hq
        · exact Nat.le_of_lt hxy
        · exact ih y t' hc q hq
      · rw [if_neg hxy] at h
        obtain ⟨rfl, -⟩ := List.cons.injEq .. ▸ h
        rcases List.mem_cons.mp hq with rfl | hq
        · exact Nat.le_refl _
        · have hyq := ih y t' hc q hq
          have hxy' := Nat.le_of_not_lt hxy
          omega

lemma canonical_port_order_ne_nil {l : List StackPort} (h : l ≠ []) :
    canonical_port_order l ≠ [] := by
  match l, h with
  | x :: t, _ =>
    intro hc
    have : x ∈ canonical_port_order (x :: t) := by
      rw [mem_canonical_port_order]
      simp
    rw [hc] at this
    simp at this

/-- `Stack.canonical_up_ports`: the UP stack ports in canonical order. -/
def canonical_up_ports (ports : List StackPort) : List StackPort :=
  canonical_port_order (ports.filter (fun p => p.stackUp))

/-- A datapath with its stack ports, as seen by `ValveStackManager`. -/
structure DpConf where
  name : DpName
  ports : List StackPort
  deriving DecidableEq, Repr

/-- The three derived port sets of `_reset_peer_distances`:
`all_towards_root_stack_ports`, `towards_root_stack_ports`,
`away_from_root_stack_ports`. -/
structure PeerDistances where
  all_towards : List StackPort
  towards : List StackPort
  away : List StackPort
  deriving DecidableEq, Repr

/-- `len(port.stack['dp'].stack.shortest_path_to_root())`: the length of the
peer's shortest path to the root, on the shared stack graph. -/
def peerDist (g : StackGraph) (root : DpName) (p : StackPort) : Nat :=
  (shortest_path g root p.peerDp).length

/-- The `shortest_peer_distance` accumulation loop of
`_reset_peer_distances` (`min` over the peer-distance dict values,
starting from `None`). -/
def shortestPeerDistance (g : StackGraph) (root : DpName)
    (ports : List StackPort) : Option Nat :=
  ports.foldl
    (fun acc p =>
      match acc with
      | none => some (peerDist g root p)
      | some m => some (min m (peerDist g root p)))
    none

/-- `all_towards_root_stack_ports`: the UP ports whose peer distance equals
the minimum. -/
def allTowardsOf (g : StackGraph) (root : DpName)
    (ports : List StackPort) : List StackPort :=
  match shortestPeerDistance g root ports with
  | none => []
  | some m => ports.filter (fun p => peerDist g root p == m)

/-- `first_peer_dp` of `_reset_peer_distances`: the second hop of this
datapath's own shortest path to root when that path is longer than one,
otherwise the peer of the canonically first all-towards port. -/
def firstPeerDpOf (g : StackGraph) (root selfName : DpName)
    (allT : List StackPort) : DpName :=
  if (shortest_path g root selfName).length > 1 then
    (shortest_path g root selfName)[1]?.getD 0
  else ((canonical_port_order allT).head?.map (fun p => p.peerDp)).getD 0

/-- `ValveStackManager._reset_peer_distances`.  All datapaths share the one
stack graph and elected root, so a peer's
`port.stack['dp'].stack.shortest_path_to_root()` is `shortest_path` from the
peer's name to the root on the shared graph; `self.is_stack_root()` and
`self.dp_shortest_path_to_root()` (helpers not under src/) are
`Stack.is_root` and `Stack.shortest_path_to_root` on the manager's own
datapath. -/
def _reset_peer_distances (g : StackGraph) (root : DpName) (self : DpConf) :
    PeerDistances :=
  if self.name == root then
    { all_towards := [], towards := [],
      away := canonical_up_ports self.ports }
  else
    { all_towards := allTowardsOf g root (canonical_up_ports self.ports)
      towards :=
        if (allTowardsOf g root (canonical_up_ports self.ports)).isEmpty then []
        else (allTowardsOf g root (canonical_up_ports self.ports)).filter
          (fun p => p.peerDp == firstPeerDpOf g root self.name
            (allTowardsOf g root (canonical_up_ports self.ports)))
      away := (canonical_up_ports self.ports).filter
        (fun p => !((allTowardsOf g root (canonical_up_ports self.ports)).contains p)) }

lemma mem_canonical_up_ports (p : StackPort) (ports : List StackPort) :
    p ∈ canonical_up_ports ports ↔ p ∈ ports ∧ p.stackUp = true := by
  unfold canonical_up_ports
  rw [mem_canonical_port_order, List.mem_filter]

lemma minFold_some (f : StackPort → Nat) :
    ∀ (l : List StackPort) (m : Nat),
      ∃ M, l.foldl
          (fun acc p =>
            match acc with
            | none => some (f p)
            | some m => some (min m (f p)))
          (some m) = some M ∧
        M ≤ m ∧ (∀ p ∈ l, M ≤ f p) ∧ (M = m ∨ ∃ p ∈ l, M = f p) := by
  intro l
  induction l with
  | nil => intro m; exact ⟨m, rfl, Nat.le_refl _, by simp, Or.inl rfl⟩
  | cons q t ih =>
    intro m
    obtain ⟨M, hM, hle, hall, horig⟩ := ih (min m (f q))
    refine ⟨M, hM, Nat.le_trans hle (Nat.min_le_left ..), ?_, ?_⟩
    · intro p hp
      rcases List.mem_cons.mp hp with rfl | hp
      · exact Nat.le_trans hle (Nat.min_le_right ..)
      · exact hall p hp
    · rcases horig with h | ⟨p, hp, hpe⟩
      · rcases Nat.le_total m (f q) with hmq | hmq
        · exact Or.inl (by rw [h]; exact Nat.min_eq_left hmq)
        · exact Or.inr ⟨q, by simp, by rw [h]; exact Nat.min_eq_right hmq⟩
      · exact Or.inr ⟨p, List.mem_cons_of_mem _ hp, hpe⟩

lemma minFold_spec (f : StackPort → Nat) (l : List StackPort) (hl : l ≠ []) :
    ∃ M, l.foldl
        (fun acc p =>
          match acc with
          | none => some (f p)
          | some m => some (min m (f p)))
        (none : Option Nat) = some M ∧
      (∀ p ∈ l, M ≤ f p) ∧ (∃ p ∈ l, M = f p) := by
  match l, hl with
  | q :: t, _ =>
    obtain ⟨M, hM, hle, hall, horig⟩ := minFold_some f t (f q)
    refine ⟨M, hM, ?_, ?_⟩
    · intro p hp
      rcases List.mem_cons.mp hp with rfl | hp
      · exact hle
      · exact hall p hp
    · rcases horig with h | ⟨p, hp, hpe⟩
      · exact ⟨q, by simp, h⟩
      · exact ⟨p, List.mem_cons_of_mem _ hp, hpe⟩

lemma shortestPeerDistance_nil (g : StackGraph) (root : DpName) :
    shortestPeerDistance g root [] = none := rfl

lemma mem_allTowardsOf (g : StackGraph) (root : DpName) (ports : List StackPort)
    (p : StackPort) :
    p ∈ allTowardsOf g root ports ↔
      p ∈ ports ∧ ∀ q ∈ ports, peerDist g root p ≤ peerDist g root q := by
  unfold allTowardsOf
  by_cases hne : ports = []
  · subst hne
    rw [shortestPeerDistance_nil]
    simp
  · obtain ⟨M, hM, hall, q0, hq0, hq0e⟩ := minFold_spec (peerDist g root) ports hne
    unfold shortestPeerDistance
    rw [hM]
    rw [List.mem_filter]
    constructor
    · rintro ⟨hp, hpd⟩
      have hpe : peerDist g root p = M := by simpa using hpd
      exact ⟨hp, fun q hq => hpe ▸ hall q hq⟩
    · rintro ⟨hp, hmin⟩
      refine ⟨hp, ?_⟩
      have h1 : peerDist g root p ≤ M := hq0e ▸ hmin q0 hq0
      have h2 : M ≤ peerDist g root p := hall p hp
      simp [Nat.le_antisymm h1 h2]

/-- C2: `_reset_peer_distances` computes: on the root, empty towards sets and
away = all UP ports; on a non-root, all-towards = UP ports of minimal peer
distance to root, away = the other UP ports, and the chosen towards set keeps
the all-towards ports whose peer is `path[1]` of this datapath's shortest
path to root when that path is longer than 1, else the peer of the
canonically-first all-towards port. -/
theorem C2_reset_peer_distances_correct (g : StackGraph) (root : DpName)
    (self : DpConf) (r : PeerDistances)
    (hr : r = _reset_peer_distances g root self) :
    (self.name = root →
      r.all_towards = [] ∧ r.towards = [] ∧
      (∀ p, p ∈ r.away ↔ p ∈ self.ports ∧ p.stackUp = true)) ∧
    (self.name ≠ root →
      (∀ p, p ∈ r.all_towards ↔
        p ∈ self.ports ∧ p.stackUp = true ∧
        ∀ q ∈ self.ports, q.stackUp = true →
          (shortest_path g root p.peerDp).length ≤
            (shortest_path g root q.peerDp).length) ∧
      (∀ p, p ∈ r.away ↔
        p ∈ self.ports ∧ p.stackUp = true ∧
        ∃ q ∈ self.ports, q.stackUp = true ∧
          (shortest_path g root q.peerDp).length <
            (shortest_path g root p.peerDp).length) ∧
      ((shortest_path g root self.name).length > 1 →
        ∀ p, p ∈ r.towards ↔
          p ∈ r.all_towards ∧
            (shortest_path g root self.name)[1]? = some p.peerDp) ∧
      (¬ (shortest_path g root self.name).length > 1 → r.all_towards ≠ [] →
        ∃ f, f ∈ r.all_towards ∧ (∀ q ∈ r.all_towards, f.number ≤ q.number) ∧
          ∀ p, p ∈ r.towards ↔ p ∈ r.all_towards ∧ p.peerDp = f.peerDp)) := by
  constructor
  · intro hroot
    rw [hr]
    unfold _reset_peer_distances
    rw [if_pos (by simpa using hroot)]
    exact ⟨rfl, rfl, fun p => mem_canonical_up_ports p self.ports⟩
  · intro hroot
    have hne : (self.name == root) = false := by simpa using hroot
    have hAT : r.all_towards = allTowardsOf g root (canonical_up_ports self.ports) := by
      rw [hr]
      unfold _reset_peer_distances
      rw [if_neg (by simp [hne])]
    have hTW : r.towards =
        (if (allTowardsOf g root (canonical_up_ports self.ports)).isEmpty then []
         else (allTowardsOf g root (canonical_up_ports self.ports)).filter
           (fun p => p.peerDp == firstPeerDpOf g root self.name
             (allTowardsOf g root (canonical_up_ports self.ports)))) := by
      rw [hr]
      unfold _reset_peer_distances
      rw [if_neg (by simp [hne])]
    have hAW : r.away = (canonical_up_ports self.ports).filter
        (fun p => !((allTowardsOf g root (canonical_up_ports self.ports)).contains p)) := by
      rw [hr]
      unfold _reset_peer_distances
      rw [if_neg (by simp [hne])]
    have hallt : ∀ p, p ∈ r.all_towards ↔
        p ∈ self.ports ∧ p.stackUp = true ∧
        ∀ q ∈ self.ports, q.stackUp = true →
          (shortest_path g root p.peerDp).length ≤
            (shortest_path g root q.peerDp).length := by
      intro p
      rw [hAT, mem_allTowardsOf]
      constructor
      · rintro ⟨hp, hmin⟩
        obtain ⟨hp1, hp2⟩ := (mem_canonical_up_ports p self.ports).mp hp
        refine ⟨hp1, hp2, ?_⟩
        intro q hq hqu
        exact hmin q ((mem_canonical_up_ports q self.ports).mpr ⟨hq, hqu⟩)
      · rintro ⟨hp1, hp2, hmin⟩
        refine ⟨(mem_canonical_up_ports p self.ports).mpr ⟨hp1, hp2⟩, ?_⟩
        intro q hq
        obtain ⟨hq1, hq2⟩ := (mem_canonical_up_ports q self.ports).mp hq
        exact hmin q hq1 hq2
    refine ⟨hallt, ?_, ?_, ?_⟩
    · intro p
      have hmem : p ∈ r.away ↔
          p ∈ canonical_up_ports self.ports ∧ p ∉ r.all_towards := by
        rw [hAW, List.mem_filter]
        constructor
        · rintro ⟨h1, h2⟩
          refine ⟨h1, ?_⟩
          intro hc
          rw [hAT] at hc
          simp at h2
          exact h2 hc
        · rintro ⟨h1, h2⟩
          refine ⟨h1, ?_⟩
          rw [hAT] at h2
          simpa using h2
      rw [hmem, mem_canonical_up_ports]
      rw [hallt p]
      constructor
      · rintro ⟨⟨h1, h2⟩, h3⟩
        refine ⟨h1, h2, ?_⟩
        by_contra hc
        push_neg at hc
        exact h3 ⟨h1, h2, fun q hq hqu =>
          Nat.le_of_not_lt (fun hlt => absurd hlt (by
            intro hl
            exact Nat.not_le.mpr hl (hc q hq hqu)))⟩
      · rintro ⟨h1, h2, q, hq, hqu, hlt⟩
        refine ⟨⟨h1, h2⟩, ?_⟩
        rintro ⟨-, -, hmin⟩
        exact Nat.not_le.mpr hlt (hmin q hq hqu)
    · intro hlen p
      rw [hTW]
      obtain ⟨d, hd⟩ : ∃ d, (shortest_path g root self.name)[1]? = some d := by
        have : 1 < (shortest_path g root self.name).length := hlen
        exact ⟨_, List.getElem?_eq_getElem this⟩
      have hfp : firstPeerDpOf g root self.name
          (allTowardsOf g root (canonical_up_ports self.ports)) = d := by
        unfold firstPeerDpOf
        rw [if_pos hlen, hd]
        rfl
      by_cases hempty : (allTowardsOf g root (canonical_up_ports self.ports)).isEmpty
      · rw [if_pos hempty]
        rw [List.isEmpty_iff] at hempty
        constructor
        · intro h
          simp at h
        · rintro ⟨hmem, -⟩
          rw [hAT, hempty] at hmem
          simp at hmem
      · rw [if_neg hempty]
        rw [List.mem_filter, hfp]
        rw [hAT]
        rw [hd]
        constructor
        · rintro ⟨h1, h2⟩
          exact ⟨h1, by simpa using (eq_of_beq h2).symm⟩
        · rintro ⟨h1, h2⟩
          refine ⟨h1, ?_⟩
          simp only [Option.some.injEq] at h2
          simp [h2]
    · intro hlen hne
      rw [hAT] at hne ⊢
      have hcne : canonical_port_order
          (allTowardsOf g root (canonical_up_ports self.ports)) ≠ [] :=
        canonical_port_order_ne_nil hne
      obtain ⟨f, rest, hf⟩ : ∃ f rest, canonical_port_order
          (allTowardsOf g root (canonical_up_ports self.ports)) = f :: rest := by
        cases hc : canonical_port_order
            (allTowardsOf g root (canonical_up_ports self.ports)) with
        | nil => exact absurd hc hcne
        | cons f rest => exact ⟨f, rest, rfl⟩
      have hfmem : f ∈ allTowardsOf g root (canonical_up_ports self.ports) := by
        rw [← mem_canonical_port_order, hf]
        simp
      have hfmin := canonical_port_order_head_min _ f rest hf
      refine ⟨f, hfmem, hfmin, ?_⟩
      intro p
      rw [hTW]
      rw [if_neg (by simpa using hne)]
      have hfp : firstPeerDpOf g root self.name
          (allTowardsOf g root (canonical_up_ports self.ports)) = f.peerDp := by
        unfold firstPeerDpOf
        rw [if_neg hlen, hf]
        rfl
      rw [List.mem_filter, hfp]
      constructor
      · rintro ⟨h1, h2⟩
        exact ⟨h1, eq_of_beq h2⟩
      · rintro ⟨h1, h2⟩
        exact ⟨h1, by simp [h2]⟩

lemma rpd_nonroot_fields (g : StackGraph) (root : DpName) (self : DpConf)
    (h : (self.name == root) = false) :
    (_reset_peer_distances g root self).all_towards =
        allTowardsOf g root (canonical_up_ports self.ports) ∧
    (_reset_peer_distances g root self).towards =
        (if (allTowardsOf g root (canonical_up_ports self.ports)).isEmpty then []
         else (allTowardsOf g root (canonical_up_ports self.ports)).filter
           (fun p => p.peerDp == firstPeerDpOf g root self.name
             (allTowardsOf g root (canonical_up_ports self.ports)))) ∧
    (_reset_peer_distances g root self).away =
        (canonical_up_ports self.ports).filter
          (fun p => !((allTowardsOf g root (canonical_up_ports self.ports)).contains p)) := by
  unfold _reset_peer_distances
  rw [if_neg (by simp [h])]
  exact ⟨rfl, rfl, rfl⟩

/-- Witness for C2 on the three-node example stack: datapath 2 with one UP
port toward the root 1 and one UP port toward 3. -/
theorem C2_reset_peer_distances_correct_witness :
    ((2 : Nat) = 1 →
      (_reset_peer_distances exampleGraph 1 ⟨2, [⟨1, 1, 1, true, true, false⟩,
        ⟨2, 3, 1, true, true, false⟩]⟩).all_towards = [] ∧
      (_reset_peer_distances exampleGraph 1 ⟨2, [⟨1, 1, 1, true, true, false⟩,
        ⟨2, 3, 1, true, true, false⟩]⟩).towards = [] ∧
      (∀ p, p ∈ (_reset_peer_distances exampleGraph 1 ⟨2, [⟨1, 1, 1, true, true, false⟩,
        ⟨2, 3, 1, true, true, false⟩]⟩).away ↔
        p ∈ [⟨1, 1, 1, true, true, false⟩, ⟨2, 3, 1, true, true, false⟩] ∧
          p.stackUp = true)) ∧
    ((2 : Nat) ≠ 1 →
      (∀ p, p ∈ (_reset_peer_distances exampleGraph 1 ⟨2, [⟨1, 1, 1, true, true, false⟩,
        ⟨2, 3, 1, true, true, false⟩]⟩).all_towards ↔
        p ∈ [⟨1, 1, 1, true, true, false⟩, ⟨2, 3, 1, true, true, false⟩] ∧
          p.stackUp = true ∧
        ∀ q ∈ [(⟨1, 1, 1, true, true, false⟩ : StackPort),
            ⟨2, 3, 1, true, true, false⟩], q.stackUp = true →
          (shortest_path exampleGraph 1 p.peerDp).length ≤
            (shortest_path exampleGraph 1 q.peerDp).length) ∧
      (∀ p, p ∈ (_reset_peer_distances exampleGraph 1 ⟨2, [⟨1, 1, 1, true, true, false⟩,
        ⟨2, 3, 1, true, true, false⟩]⟩).away ↔
        p ∈ [⟨1, 1, 1, true, true, false⟩, ⟨2, 3, 1, true, true, false⟩] ∧
          p.stackUp = true ∧
        ∃ q ∈ [(⟨1, 1, 1, true, true, false⟩ : StackPort),
            ⟨2, 3, 1, true, true, false⟩], q.stackUp = true ∧
          (shortest_path exampleGraph 1 q.peerDp).length <
            (shortest_path exampleGraph 1 p.peerDp).length) ∧
      ((shortest_path exampleGraph 1 2).length > 1 →
        ∀ p, p ∈ (_reset_peer_distances exampleGraph 1 ⟨2, [⟨1, 1, 1, true, true, false⟩,
          ⟨2, 3, 1, true, true, false⟩]⟩).towards ↔
          p ∈ (_reset_peer_distances exampleGraph 1 ⟨2, [⟨1, 1, 1, true, true, false⟩,
            ⟨2, 3, 1, true, true, false⟩]⟩).all_towards ∧
            (shortest_path exampleGraph 1 2)[1]? = some p.peerDp) ∧
      (¬ (shortest_path exampleGraph 1 2).length > 1 →
        (_reset_peer_distances exampleGraph 1 ⟨2, [⟨1, 1, 1, true, true, false⟩,
          ⟨2, 3, 1, true, true, false⟩]⟩).all_towards ≠ [] →
        ∃ f, f ∈ (_reset_peer_distances exampleGraph 1 ⟨2, [⟨1, 1, 1, true, true, false⟩,
            ⟨2, 3, 1, true, true, false⟩]⟩).all_towards ∧
          (∀ q ∈ (_reset_peer_distances exampleGraph 1 ⟨2, [⟨1, 1, 1, true, true, false⟩,
            ⟨2, 3, 1, true, true, false⟩]⟩).all_towards, f.number ≤ q.number) ∧
          ∀ p, p ∈ (_reset_peer_distances exampleGraph 1 ⟨2, [⟨1, 1, 1, true, true, false⟩,
              ⟨2, 3, 1, true, true, false⟩]⟩).towards ↔
            p ∈ (_reset_peer_distances exampleGraph 1 ⟨2, [⟨1, 1, 1, true, true, false⟩,
              ⟨2, 3, 1, true, true, false⟩]⟩).all_towards ∧ p.peerDp = f.peerDp)) :=
  C2_reset_peer_distances_correct exampleGraph 1
    ⟨2, [⟨1, 1, 1, true, true, false⟩, ⟨2, 3, 1, true, true, false⟩]⟩
    (_reset_peer_distances exampleGraph 1
      ⟨2, [⟨1, 1, 1, true, true, false⟩, ⟨2, 3, 1, true, true, false⟩]⟩) rfl

/-! ### Flood actions (reflection strategy) -/

/-- An abstract flood action: an output to a stack port, `output_in_port()`,
an output to a local (non-stack) port, or an external-forwarding flag
setter. -/
inductive FloodAction where
  | port (n : Nat)
  | inPort
  | localPort (n : Nat)
  | extFlag
  | nonextFlag
  deriving DecidableEq, Repr

/-- Modelled from the spec: `valve_of.flood_tagged_port_outputs` is not under
src/; it emits an output action for every given port except the in-port and
any excluded port, and a flooded frame is never sent back out its ingress
port. -/
def flood_tagged_port_outputs (ports : List StackPort) (in_port : Option StackPort)
    (exclude_ports : List StackPort) : List FloodAction :=
  (ports.filter (fun p => !(some p == in_port) && !(exclude_ports.contains p))).map
    (fun p => FloodAction.port p.number)

/-- `ValveStackManager.inactive_away_stack_ports`: UP ports whose peer has a
shorter route to the root that does not pass through this datapath. -/
def inactive_away_stack_ports (g : StackGraph) (root : DpName) (self : DpConf) :
    List StackPort :=
  let sp := shortest_path g root self.name
  if sp.length < 2 then []
  else
    (canonical_up_ports self.ports).filter (fun p =>
      decide ((shortest_path g root p.peerDp).length > 1) &&
        !((shortest_path g root p.peerDp)[1]?.getD 0 == sp.headD 0))

/-- `ValveSwitchStackManagerReflection._flood_actions`. -/
def reflection_flood_actions (isRoot : Bool) (away allTowards : List StackPort)
    (extPrefix nonextPrefix : List FloodAction) (in_port : Option StackPort)
    (external_ports : Bool) (awayActs towardActs localActs : List FloodAction) :
    List FloodAction :=
  if isRoot then
    let flood_prefix := if external_ports then nonextPrefix else extPrefix
    let base :=
      match in_port with
      | some ip =>
        if away.contains ip then awayActs ++ [FloodAction.inPort] ++ localActs
        else awayActs ++ localActs
      | none => awayActs ++ localActs
    flood_prefix ++ base
  else
    match in_port with
    | some ip =>
      if away.contains ip then towardActs
      else if allTowards.contains ip then
        (if external_ports then nonextPrefix ++ awayActs ++ localActs
         else awayActs ++ nonextPrefix ++ localActs)
      else if ip.lpe then nonextPrefix ++ towardActs
      else extPrefix ++ towardActs
    | none =>
      if external_ports then nonextPrefix ++ towardActs
      else extPrefix ++ towardActs

/-- `ValveSwitchStackManagerBase._build_flood_rule_actions` for the
reflection manager: excluded ports are the inactive-away ports plus every
port towards the ingress port's peer datapath; the local flood actions
(computed by the standalone switch manager, not under src/) are passed in
abstractly. -/
def build_flood_rule_actions_reflection (g : StackGraph) (root : DpName)
    (self : DpConf) (external_ports : Bool)
    (extPrefix nonextPrefix localActs : List FloodAction)
    (in_port : Option StackPort) : List FloodAction :=
  let r := _reset_peer_distances g root self
  let exclude0 := inactive_away_stack_ports g root self
  let exclude_ports :=
    match in_port with
    | some ip =>
      if self.ports.contains ip then
        exclude0 ++ self.ports.filter (fun q => q.peerDp == ip.peerDp)
      else exclude0
    | none => exclude0
  reflection_flood_actions (self.name == root) r.away r.all_towards
    extPrefix nonextPrefix in_port external_ports
    (flood_tagged_port_outputs r.away in_port exclude_ports)
    (flood_tagged_port_outputs r.towards in_port [])
    localActs

lemma mem_flood_tagged {ports : List StackPort} {in_port : Option StackPort}
    {excl : List StackPort} {a : FloodAction}
    (ha : a ∈ flood_tagged_port_outputs ports in_port excl) :
    ∃ p ∈ ports, some p ≠ in_port ∧ a = FloodAction.port p.number := by
  unfold flood_tagged_port_outputs at ha
  rw [List.mem_map] at ha
  obtain ⟨p, hp, rfl⟩ := ha
  rw [List.mem_filter] at hp
  obtain ⟨hp1, hp2⟩ := hp
  rw [Bool.and_eq_true] at hp2
  refine ⟨p, hp1, ?_, rfl⟩
  intro hc
  rw [← hc] at hp2
  simp at hp2

lemma towards_subset_all_towards {g : StackGraph} {root : DpName} {self : DpConf}
    (h : (self.name == root) = false) {p : StackPort}
    (hp : p ∈ (_reset_peer_distances g root self).towards) :
    p ∈ (_reset_peer_distances g root self).all_towards := by
  obtain ⟨hAT, hTW, -⟩ := rpd_nonroot_fields g root self h
  rw [hTW] at hp
  rw [hAT]
  by_cases he : (allTowardsOf g root (canonical_up_ports self.ports)).isEmpty
  · rw [if_pos he] at hp
    simp at hp
  · rw [if_neg he] at hp
    exact (List.mem_filter.mp hp).1

lemma away_not_all_towards {g : StackGraph} {root : DpName} {self : DpConf}
    (h : (self.name == root) = false) {q : StackPort}
    (hq : q ∈ (_reset_peer_distances g root self).away) :
    q ∈ self.ports ∧ q.stackUp = true ∧
      q ∉ (_reset_peer_distances g root self).all_towards := by
  obtain ⟨hAT, -, hAW⟩ := rpd_nonroot_fields g root self h
  rw [hAW] at hq
  rw [List.mem_filter] at hq
  obtain ⟨h1, h2⟩ := hq
  obtain ⟨h3, h4⟩ := (mem_canonical_up_ports q self.ports).mp h1
  refine ⟨h3, h4, ?_⟩
  rw [hAT]
  intro hc
  simp at h2
  exact h2 hc

lemma all_towards_up {g : StackGraph} {root : DpName} {self : DpConf}
    (h : (self.name == root) = false) {p : StackPort}
    (hp : p ∈ (_reset_peer_distances g root self).all_towards) :
    p ∈ self.ports ∧ p.stackUp = true := by
  obtain ⟨hAT, -, -⟩ := rpd_nonroot_fields g root self h
  rw [hAT] at hp
  rw [mem_allTowardsOf] at hp
  exact (mem_canonical_up_ports p self.ports).mp hp.1

/-- C3: on a non-root datapath running the reflection flood strategy, a frame
entering on an away-from-root stack port is flooded exactly to the
toward-root flood actions: no away-port output, no local-port output, no
`output_in_port`, and no output on the ingress port itself. -/
theorem C3_reflection_away_ingress_floods_toward_only
    (g : StackGraph) (root : DpName) (self : DpConf) (external_ports : Bool)
    (extPrefix nonextPrefix localActs : List FloodAction) (ip : StackPort)
    (hroot : self.name ≠ root)
    (hin : ip ∈ (_reset_peer_distances g root self).away)
    (hnodup : ((self.ports.filter (fun p => p.stackUp)).map
      (fun p => p.number)).Nodup) :
    build_flood_rule_actions_reflection g root self external_ports
        extPrefix nonextPrefix localActs (some ip) =
      flood_tagged_port_outputs (_reset_peer_distances g root self).towards
        (some ip) [] ∧
    (∀ q ∈ (_reset_peer_distances g root self).away,
      FloodAction.port q.number ∉ build_flood_rule_actions_reflection g root self
        external_ports extPrefix nonextPrefix localActs (some ip)) ∧
    (∀ n, FloodAction.localPort n ∉ build_flood_rule_actions_reflection g root self
      external_ports extPrefix nonextPrefix localActs (some ip)) ∧
    FloodAction.inPort ∉ build_flood_rule_actions_reflection g root self
      external_ports extPrefix nonextPrefix localActs (some ip) ∧
    FloodAction.port ip.number ∉ build_flood_rule_actions_reflection g root self
      external_ports extPrefix nonextPrefix localActs (some ip) := by
  have hne : (self.name == root) = false := by simpa using hroot
  have hacts : build_flood_rule_actions_reflection g root self external_ports
      extPrefix nonextPrefix localActs (some ip) =
      flood_tagged_port_outputs (_reset_peer_distances g root self).towards
        (some ip) [] := by
    unfold build_flood_rule_actions_reflection reflection_flood_actions
    rw [hne]
    show (if (_reset_peer_distances g root self).away.contains ip then _ else _) = _
    rw [if_pos (by simpa using hin)]
  have hnoaway : ∀ q ∈ (_reset_peer_distances g root self).away,
      FloodAction.port q.number ∉ build_flood_rule_actions_reflection g root self
        external_ports extPrefix nonextPrefix localActs (some ip) := by
    intro q hq hc
    rw [hacts] at hc
    obtain ⟨p, hp, -, hpe⟩ := mem_flood_tagged hc
    have hpa := towards_subset_all_towards hne hp
    obtain ⟨hp1, hp2⟩ := all_towards_up hne hpa
    obtain ⟨hq1, hq2, hq3⟩ := away_not_all_towards hne hq
    have hnum : p.number = q.number := (by simpa using hpe : q.number = p.number).symm
    have hpq : p = q := by
      have hinj := List.inj_on_of_nodup_map hnodup
      exact hinj (List.mem_filter.mpr ⟨hp1, by simp [hp2]⟩)
        (List.mem_filter.mpr ⟨hq1, by simp [hq2]⟩) hnum
    rw [hpq] at hpa
    exact hq3 hpa
  refine ⟨hacts, hnoaway, ?_, ?_, ?_⟩
  · intro n hc
    rw [hacts] at hc
    obtain ⟨p, -, -, hpe⟩ := mem_flood_tagged hc
    exact absurd hpe (by simp)
  · intro hc
    rw [hacts] at hc
    obtain ⟨p, -, -, hpe⟩ := mem_flood_tagged hc
    exact absurd hpe (by simp)
  · exact hnoaway ip hin

/-- Witness for C3 on the three-node example stack: datapath 2, root 1,
ingress on the away port toward 3. -/
theorem C3_reflection_away_ingress_floods_toward_only_witness :
    build_flood_rule_actions_reflection exampleGraph 1
        ⟨2, [⟨1, 1, 1, true, true, false⟩, ⟨2, 3, 1, true, true, false⟩]⟩ false
        [FloodAction.extFlag] [FloodAction.nonextFlag] [FloodAction.localPort 9]
        (some ⟨2, 3, 1, true, true, false⟩) =
      flood_tagged_port_outputs
        (_reset_peer_distances exampleGraph 1
          ⟨2, [⟨1, 1, 1, true, true, false⟩, ⟨2, 3, 1, true, true, false⟩]⟩).towards
        (some ⟨2, 3, 1, true, true, false⟩) [] ∧
    (∀ q ∈ (_reset_peer_distances exampleGraph 1
        ⟨2, [⟨1, 1, 1, true, true, false⟩, ⟨2, 3, 1, true, true, false⟩]⟩).away,
      FloodAction.port q.number ∉ build_flood_rule_actions_reflection exampleGraph 1
        ⟨2, [⟨1, 1, 1, true, true, false⟩, ⟨2, 3, 1, true, true, false⟩]⟩ false
        [FloodAction.extFlag] [FloodAction.nonextFlag] [FloodAction.localPort 9]
        (some ⟨2, 3, 1, true, true, false⟩)) ∧
    (∀ n, FloodAction.localPort n ∉ build_flood_rule_actions_reflection exampleGraph 1
      ⟨2, [⟨1, 1, 1, true, true, false⟩, ⟨2, 3, 1, true, true, false⟩]⟩ false
      [FloodAction.extFlag] [FloodAction.nonextFlag] [FloodAction.localPort 9]
      (some ⟨2, 3, 1, true, true, false⟩)) ∧
    FloodAction.inPort ∉ build_flood_rule_actions_reflection exampleGraph 1
      ⟨2, [⟨1, 1, 1, true, true, false⟩, ⟨2, 3, 1, true, true, false⟩]⟩ false
      [FloodAction.extFlag] [FloodAction.nonextFlag] [FloodAction.localPort 9]
      (some ⟨2, 3, 1, true, true, false⟩) ∧
    FloodAction.port (⟨2, 3, 1, true, true, false⟩ : StackPort).number ∉
      build_flood_rule_actions_reflection exampleGraph 1
        ⟨2, [⟨1, 1, 1, true, true, false⟩, ⟨2, 3, 1, true, true, false⟩]⟩ false
        [FloodAction.extFlag] [FloodAction.nonextFlag] [FloodAction.localPort 9]
        (some ⟨2, 3, 1, true, true, false⟩) :=
  C3_reflection_away_ingress_floods_toward_only exampleGraph 1
    ⟨2, [⟨1, 1, 1, true, true, false⟩, ⟨2, 3, 1, true, true, false⟩]⟩ false
    [FloodAction.extFlag] [FloodAction.nonextFlag] [FloodAction.localPort 9]
    ⟨2, 3, 1, true, true, false⟩ (by decide) (by decide) (by decide)


/-! ### Tunnel path resolution (`acl_update_tunnel`, `shortest_path_port`) -/

/-- A Python exception raised by the embedded code. -/
inductive PyErr where
  | indexError
  | nameError (n : String)
  | attributeError (n : String)
  | unboundLocal (n : String)
  deriving DecidableEq, Repr

/-- `Stack.peer_up_ports`: the running ports towards a peer datapath, in
canonical order. -/
def peer_up_ports (ports : List StackPort) (peer : DpName) : List StackPort :=
  canonical_port_order (ports.filter (fun p => p.running && p.peerDp == peer))

/-- `Stack.shortest_path_port`: the first running port towards the second
hop of this datapath's shortest path to the destination. -/
def shortest_path_port (g : StackGraph) (selfName : DpName)
    (ports : List StackPort) (dest_dp : DpName) : Option StackPort :=
  if (shortest_path g dest_dp selfName).length > 1 then
    match peer_up_ports ports ((shortest_path g dest_dp selfName)[1]?.getD 0) with
    | [] => none
    | p :: _ => some p
  else none

/-- One tunnel rule of `ValveSwitchStackManagerBase.acl_update_tunnel`, for
tunnel `(src_dp, dst_dp, dst_port)` as resolved on datapath `selfName`:
`none` when the rule is skipped (this datapath is not on the shortest path
from the source to the destination), otherwise the produced output port, or
the `AttributeError` Python would raise if `shortest_path_port` returned
`None` (`None.number`).  A configured `dst_port` of `0` is falsy in Python
(`if not out_port`), so only a nonzero literal escapes re-resolution. -/
def acl_update_tunnel_out_port (g : StackGraph) (selfName : DpName)
    (selfPorts : List StackPort) (src_dp dst_dp : DpName) (dst_port : Nat) :
    Option (Except PyErr Nat) :=
  if selfName ∈ shortest_path g dst_dp src_dp then
    some (
      if (match (if selfName == dst_dp then some dst_port else none) with
          | some n => n != 0
          | none => false) then
        Except.ok ((if selfName == dst_dp then some dst_port else none).getD 0)
      else
        match shortest_path_port g selfName selfPorts dst_dp with
        | some p => .ok p.number
        | none => .error (.attributeError "NoneType has no attribute number"))
  else none

lemma mem_of_getLast?_eq_some {l : List Nat} {b : Nat} (h : l.getLast? = some b) :
    b ∈ l := by
  cases l with
  | nil => simp at h
  | cons x t =>
    rw [List.getLast?_eq_getLast (x :: t) (by simp)] at h
    obtain rfl : (x :: t).getLast (by simp) = b := by simpa using h
    exact List.getLast_mem _

lemma walk_singleton_eq {g : StackGraph} {a b x : DpName}
    (h : IsWalkFrom g a b [x]) : a = b := by
  obtain ⟨h1, h2, -⟩ := h
  simp only [List.head?_cons, Option.some.injEq] at h1
  simp only [List.getLast?_singleton, Option.some.injEq] at h2
  rw [← h1, ← h2]

/-- C9: tunnel resolution skips the rule when the source has no path to the
destination; outputs the literal destination port on the destination
datapath; and on any other on-path datapath outputs the number of the first
running port towards the next datapath of its shortest path to the
destination. -/
theorem C9_tunnel_resolution_correct (g : StackGraph) (hwf : g.WF)
    (selfName : DpName) (selfPorts : List StackPort)
    (src_dp dst_dp : DpName) (dst_port : Nat) :
    ((¬ Reachable g src_dp dst_dp ∨ src_dp ∉ g.nodes ∨ dst_dp ∉ g.nodes) →
      acl_update_tunnel_out_port g selfName selfPorts src_dp dst_dp dst_port = none) ∧
    (selfName = dst_dp → dst_port ≠ 0 → src_dp ∈ g.nodes → dst_dp ∈ g.nodes →
      Reachable g src_dp dst_dp →
      acl_update_tunnel_out_port g selfName selfPorts src_dp dst_dp dst_port =
        some (.ok dst_port)) ∧
    (selfName ∈ shortest_path g dst_dp src_dp → selfName ≠ dst_dp →
      ∀ p rest, peer_up_ports selfPorts
          ((shortest_path g dst_dp selfName)[1]?.getD 0) = p :: rest →
        acl_update_tunnel_out_port g selfName selfPorts src_dp dst_dp dst_port =
          some (.ok p.number) ∧
        p ∈ selfPorts ∧ p.running = true ∧
        p.peerDp = (shortest_path g dst_dp selfName)[1]?.getD 0 ∧
        (∀ q ∈ selfPorts, q.running = true →
          q.peerDp = (shortest_path g dst_dp selfName)[1]?.getD 0 →
            p.number ≤ q.number)) := by
  refine ⟨?_, ?_, ?_⟩
  · intro hcase
    have hempty : shortest_path g dst_dp src_dp = [] := by
      by_cases hsp : shortest_path g dst_dp src_dp = []
      · exact hsp
      · exfalso
        obtain ⟨hsrc, hdst, hwalk⟩ := shortest_path_isWalk hsp
        rcases hcase with h | h | h
        · exact h ⟨_, hwalk⟩
        · exact h hsrc
        · exact h hdst
    unfold acl_update_tunnel_out_port
    rw [hempty]
    rw [if_neg (by simp)]
  · intro hsel hport hsrc hdst hreach
    have hne := shortest_path_nonempty_of_reachable hwf hsrc hdst hreach
    obtain ⟨-, -, hwalk⟩ := shortest_path_isWalk hne
    have hmem : selfName ∈ shortest_path g dst_dp src_dp := by
      rw [hsel]
      exact mem_of_getLast?_eq_some hwalk.2.1
    unfold acl_update_tunnel_out_port
    rw [if_pos hmem]
    have ho1 : (if selfName == dst_dp then some dst_port else none) = some dst_port := by
      rw [if_pos (by simpa using hsel)]
    rw [ho1]
    rw [if_pos (by simpa using hport)]
    rfl
  · intro hmem hnd p rest hppu
    have hspne : shortest_path g dst_dp src_dp ≠ [] := by
      intro hc
      rw [hc] at hmem
      exact List.not_mem_nil _ hmem
    obtain ⟨hsrc, hdst, hwalk⟩ := shortest_path_isWalk hspne
    have hselfnode : selfName ∈ g.nodes :=
      walk_mem_nodes hwf hsrc hwalk selfName hmem
    have hreach2 : Reachable g selfName dst_dp := walk_suffix_reachable hmem hwalk
    have hne2 : shortest_path g dst_dp selfName ≠ [] :=
      shortest_path_nonempty_of_reachable hwf hselfnode hdst hreach2
    obtain ⟨-, -, hwalk2⟩ := shortest_path_isWalk hne2
    have hlen2 : (shortest_path g dst_dp selfName).length > 1 := by
      rcases hsp2 : shortest_path g dst_dp selfName with _ | ⟨x, t⟩
      · exact absurd hsp2 hne2
      · cases t with
        | nil =>
          rw [hsp2] at hwalk2
          exact absurd (walk_singleton_eq hwalk2) hnd
        | cons y t2 =>
          simp
    have hspp : shortest_path_port g selfName selfPorts dst_dp = some p := by
      unfold shortest_path_port
      rw [if_pos hlen2, hppu]
    have hout : acl_update_tunnel_out_port g selfName selfPorts src_dp dst_dp dst_port =
        some (.ok p.number) := by
      unfold acl_update_tunnel_out_port
      rw [if_pos hmem]
      have ho1 : (if selfName == dst_dp then some dst_port else none) = none := by
        rw [if_neg (by simpa using hnd)]
      rw [ho1]
      rw [if_neg (by simp)]
      rw [hspp]
    have hpmem : p ∈ peer_up_ports selfPorts
        ((shortest_path g dst_dp selfName)[1]?.getD 0) := by
      rw [hppu]
      simp
    unfold peer_up_ports at hpmem
    rw [mem_canonical_port_order, List.mem_filter] at hpmem
    obtain ⟨hp1, hp2⟩ := hpmem
    rw [Bool.and_eq_true] at hp2
    refine ⟨hout, hp1, hp2.1, by simpa using hp2.2, ?_⟩
    intro q hq hqr hqd
    have hmin := canonical_port_order_head_min
      (selfPorts.filter (fun r2 => r2.running &&
        r2.peerDp == (shortest_path g dst_dp selfName)[1]?.getD 0)) p rest hppu
    exact hmin q (List.mem_filter.mpr ⟨hq, by simp [hqr, hqd]⟩)

/-- A three-node line stack 1 - 2 - 3 used by tunnel witnesses. -/
def pathGraph : StackGraph :=
  ⟨[1, 2, 3], [(1, 2, ((1, 1), (2, 1))), (2, 3, ((2, 2), (3, 1)))]⟩

/-- Witness for C9: on the transit datapath 2 of the line 1-2-3, the tunnel
(src 1, dst 3, port 7) resolves to the running port 5 towards 3. -/
theorem C9_tunnel_resolution_correct_witness :
    acl_update_tunnel_out_port pathGraph 2 [⟨5, 3, 1, true, true, false⟩] 1 3 7 =
      some (.ok (⟨5, 3, 1, true, true, false⟩ : StackPort).number) ∧
    (⟨5, 3, 1, true, true, false⟩ : StackPort) ∈
      [(⟨5, 3, 1, true, true, false⟩ : StackPort)] ∧
    (⟨5, 3, 1, true, true, false⟩ : StackPort).running = true ∧
    (⟨5, 3, 1, true, true, false⟩ : StackPort).peerDp =
      (shortest_path pathGraph 3 2)[1]?.getD 0 ∧
    (∀ q ∈ [(⟨5, 3, 1, true, true, false⟩ : StackPort)], q.running = true →
      q.peerDp = (shortest_path pathGraph 3 2)[1]?.getD 0 →
        (⟨5, 3, 1, true, true, false⟩ : StackPort).number ≤ q.number) :=
  (C9_tunnel_resolution_correct pathGraph (by decide) 2
      [⟨5, 3, 1, true, true, false⟩] 1 3 7).2.2
    (by decide) (by decide) ⟨5, 3, 1, true, true, false⟩ [] (by decide)


/-! ### Root election (`ValvesManager.maintain_stack_root`) -/

/-- A managed valve as seen by `ValvesManager.maintain_stack_root`:
`healthy` abstracts `stack_manager.update_health` (not under src/). -/
structure MValve where
  name : DpName
  dp_id : Nat
  hasStackManager : Bool
  isRootCandidate : Bool
  healthy : Bool
  localRootName : Option DpName
  deriving DecidableEq, Repr

/-- Python `==` between `meta_dp_state.stack_root_name` (a `str` or `None`)
and a `Valve` object: always `False`.  Line 160 of valves_manager.py tests
`stack_root_name not in healthy_root_valves` against a list of Valve
objects, so the membership test never succeeds. -/
def pyEqNameValve (_name : Option DpName) (_v : MValve) : Bool := false

/-- `ValvesManager.maintain_stack_root(now, update_time)`: returns
`(stack_change, new stack_root_name)` or the exception raised.  Metric and
reconfiguration side effects are signalled by the returned Bool. -/
def maintain_stack_root (valves : List MValve) (meta_root : Option DpName) :
    Except PyErr (Bool × Option DpName) :=
  let healthy_root_valves := valves.filter
    (fun v => v.hasStackManager && v.isRootCandidate && v.healthy)
  let unhealthy_root_valves := valves.filter
    (fun v => v.hasStackManager && v.isRootCandidate && !v.healthy)
  if healthy_root_valves.isEmpty && unhealthy_root_valves.isEmpty then
    .ok (false, meta_root)
  else
    -- prev_root_valve = [valve for valve in self.valves.values()
    --                    if valve.dp.name == prev_root_name][0]
    match valves.filter (fun v => some v.name == meta_root) with
    | [] => .error .indexError
    | _prev_root_valve :: _ =>
      match (if !healthy_root_valves.isEmpty then
          (if healthy_root_valves.all (fun v => !(pyEqNameValve meta_root v)) then
            healthy_root_valves.head?.map (fun v => v.name)
          else none)
        else unhealthy_root_valves.head?.map (fun v => v.name)) with
      | none => .error (.unboundLocal "new_root_name")
      | some new_root_name =>
        if meta_root ≠ some new_root_name then
          .ok (meta_root.isSome, some new_root_name)
        else
          .ok (!(valves.filter (fun v =>
              v.hasStackManager && !(v.localRootName == meta_root))).isEmpty,
            meta_root)

/-- C4 (code bug): with two healthy candidates 1 and 2 and current root 2,
the election moves the root to 1 even though the current root is healthy,
because the `not in` test compares the root name against Valve objects and
always succeeds. -/
theorem C4_root_stability_violated :
    (⟨2, 12, true, true, true, some 2⟩ : MValve).healthy = true ∧
    (⟨2, 12, true, true, true, some 2⟩ : MValve).isRootCandidate = true ∧
    maintain_stack_root
      [⟨1, 11, true, true, true, some 2⟩, ⟨2, 12, true, true, true, some 2⟩]
      (some 2) = .ok (true, some 1) := by
  refine ⟨rfl, rfl, ?_⟩
  rfl

/-- C5 (code bug): with one (unhealthy) root candidate and no previously
elected root, `maintain_stack_root` raises `IndexError` at
`prev_root_valve = [...][0]` instead of electing the candidate. -/
theorem C5_election_raises_without_previous_root :
    ([(⟨1, 11, true, true, false, none⟩ : MValve)].filter
      (fun v => v.hasStackManager && v.isRootCandidate)) ≠ [] ∧
    maintain_stack_root [⟨1, 11, true, true, false, none⟩] none =
      .error .indexError := by
  refine ⟨by decide, ?_⟩
  rfl

/-! ### LLDP verification (`ValveLLDPManager`) -/

/-- The names imported at module level by valve_lldp.py (its lines 20-22):
`valve_of`, `valve_packet` and `ValveManagerBase`.  Neither `valve_util`
(used at line 75) nor `defaultdict` (used at line 105) is among them. -/
def valveLldpModuleImports : List String := ["valve_of", "valve_packet", "ValveManagerBase"]

/-- Python global-name resolution in valve_lldp.py: a module-level name that
was never imported raises `NameError`. -/
def resolveGlobal (n : String) : Except PyErr Unit :=
  if valveLldpModuleImports.contains n then .ok () else .error (.nameError n)

/-- Stack port states (valve_lldp reads them through `is_stack_up` /
`is_stack_init` on the Port class, which is not under src/). -/
inductive PortStackState where
  | nostate
  | init
  | up
  | gone
  | bad
  deriving DecidableEq, Repr

/-- Lines 119-123 of `ValveLLDPManager.update_stack_link_state`: after a
transition the link counts as up iff the port is UP, or INIT while its
configured peer port is UP. -/
def link_up_decision (p peer : PortStackState) : Bool :=
  p == .up || (p == .init && peer == .up)

/-- A stack port as seen by `update_stack_link_state`: its number, its state
before the update, the state `port.stack_port_update(now)` moves it to (the
Port state machine is not under src/, so the new state is an input), and its
configured peer port's state. -/
structure LldpPortState where
  number : Nat
  before : PortStackState
  after : PortStackState
  peer : PortStackState
  deriving DecidableEq, Repr

/-- `ValveLLDPManager.update_stack_link_state(ports, now, other_valves)`.
Its first statement `ofmsgs_by_valve = defaultdict(list)` evaluates the
global `defaultdict`, which valve_lldp.py never imports; the per-port
transition loop (would-be continuation) applies `link_up_decision` to every
transitioning port and hands the result to every stacked valve's
`update_stack_topo`. -/
def update_stack_link_state (ports : List LldpPortState) (_now : Nat) :
    Except PyErr (List (Nat × Bool)) :=
  match resolveGlobal "defaultdict" with
  | .error e => .error e
  | .ok _ =>
    .ok ((ports.filter (fun p => !(p.before == p.after))).map
      (fun p => (p.number, link_up_decision p.after p.peer)))

/-- A port as seen by `ValveLLDPManager._verify_lldp`: `stackPeer` is the
configured peer `(dp_id, dp name, port number)` from `port.stack`, `none`
when the port has no stack configuration. -/
structure LldpPort where
  number : Nat
  stackPeer : Option (Nat × DpName × Nat)
  before : PortStackState
  after : PortStackState
  peerState : PortStackState
  deriving DecidableEq, Repr

/-- `ValveLLDPManager._verify_lldp`: returns
`(probes_received increment, cabling_errors increment, stack_correct,
link updates)` or the exception raised.  On a peer mismatch the
`logger.error` call evaluates `valve_util.dpid_log(...)` while formatting
its message, and valve_lldp.py never imports `valve_util`. -/
def _verify_lldp (port : LldpPort) (now : Nat) (remote_dp_id : Nat)
    (remote_dp_name : DpName) (remote_port_id : Nat)
    (_remote_port_state : Nat) :
    Except PyErr (Nat × Nat × Option Bool × List (Nat × Bool)) :=
  match port.stackPeer with
  | none => .ok (0, 0, none, [])
  | some (pid, pname, pport) =>
    if remote_dp_id != pid || remote_dp_name != pname || remote_port_id != pport then
      match resolveGlobal "valve_util" with
      | .error e => .error e
      | .ok _ =>
        match update_stack_link_state
            [⟨port.number, port.before, port.after, port.peerState⟩] now with
        | .error e => .error e
        | .ok ups => .ok (1, 1, some false, ups)
    else
      match update_stack_link_state
          [⟨port.number, port.before, port.after, port.peerState⟩] now with
      | .error e => .error e
      | .ok ups => .ok (1, 0, some true, ups)

/-- C6 (code bug): a keepalive whose remote identity mismatches the
configured peer makes `_verify_lldp` raise `NameError` on the unimported
`valve_util` while formatting its log message, before the cabling-error
counter is incremented or the probe info is stored. -/
theorem C6_mismatch_probe_raises_nameerror (port : LldpPort) (now : Nat)
    (remote_dp_id : Nat) (remote_dp_name : DpName) (remote_port_id : Nat)
    (remote_port_state : Nat) (pid : Nat) (pname : DpName) (pport : Nat)
    (hpeer : port.stackPeer = some (pid, pname, pport))
    (hmismatch : remote_dp_id ≠ pid ∨ remote_dp_name ≠ pname ∨ remote_port_id ≠ pport) :
    _verify_lldp port now remote_dp_id remote_dp_name remote_port_id
      remote_port_state = .error (.nameError "valve_util") := by
  unfold _verify_lldp
  rw [hpeer]
  have hcond : (remote_dp_id != pid || remote_dp_name != pname ||
      remote_port_id != pport) = true := by
    rcases hmismatch with h | h | h <;> simp [h]
  show (if (remote_dp_id != pid || remote_dp_name != pname ||
      remote_port_id != pport) = true then _ else _) = _
  rw [if_pos hcond]
  rfl

/-- Witness for C6: the spec scenario — the port expects peer dp 2 port 3
but the probe claims dp 5 port 7. -/
theorem C6_mismatch_probe_raises_nameerror_witness :
    _verify_lldp ⟨1, some (2, 2, 3), PortStackState.up, PortStackState.bad,
        PortStackState.up⟩ 100 5 5 7 0 = .error (.nameError "valve_util") :=
  C6_mismatch_probe_raises_nameerror
    ⟨1, some (2, 2, 3), PortStackState.up, PortStackState.bad, PortStackState.up⟩
    100 5 5 7 0 2 2 3 rfl (by decide)

/-- C10 (code bug): every call of `update_stack_link_state` raises
`NameError` at its first statement because `defaultdict` is never imported
by valve_lldp.py, so the link-up rule is unreachable; the rule itself
(lines 119-123) does match the claim: up iff UP, or INIT with peer UP. -/
theorem C10_update_stack_link_state_raises :
    (∀ (ports : List LldpPortState) (now : Nat),
      update_stack_link_state ports now = .error (.nameError "defaultdict")) ∧
    (∀ s s2 : PortStackState, link_up_decision s s2 = true ↔
      (s = .up ∨ (s = .init ∧ s2 = .up))) := by
  constructor
  · intro ports now
    rfl
  · intro s s2
    cases s <;> cases s2 <;> simp [link_up_decision]


end Faucet
